import Mathlib

/-!
Verification development for the sqlz SQL statement construction engine.

Modelling conventions used throughout this file:

- Go strings are modelled as lists of characters (GoStr). Concatenation is
  list append, and the functions from the strings package that the source
  uses (Join, HasPrefix, TrimPrefix, TrimSuffix) are translated to small
  list functions below.
- Go interface values that appear in binding positions (interface\x7b\x7d in the
  source) are modelled by the inductive type GoValue. Each constructor
  corresponds to one of the concrete Go types the source inspects with type
  assertions or type switches: IndirectValue, []int, map[string]interface,
  []interface, JSONBBuilder and UpdateFunction, plus scalar leaves.
- Go maps are modelled as association lists. Where the source iterates a
  map directly with range (whose order the Go runtime makes unspecified),
  the model takes the iteration sequence as data, so that statements about
  all possible iteration orders can be made.
- The rebind step (a driver specific rewrite of the finished SQL string) is
  an external pure string transform and is out of scope; all ToSQL
  translations correspond to ToSQL(false) in the source, which is also how
  every nested statement is rendered by the source itself.
-/

/-- Go strings, modelled as lists of characters. -/
abbrev GoStr := List Char

/-- strings.Join from the Go standard library. -/
def goJoin (sep : GoStr) : List GoStr → GoStr
  | [] => []
  | [x] => x
  | x :: rest => x ++ sep ++ goJoin sep rest

/-- The decimal digit characters. The argument is always a number modulo
ten, so the last pattern is only reached by nine. -/
def digitC : Nat → Char
  | 0 => '0'
  | 1 => '1'
  | 2 => '2'
  | 3 => '3'
  | 4 => '4'
  | 5 => '5'
  | 6 => '6'
  | 7 => '7'
  | 8 => '8'
  | _ => '9'

/-- Decimal rendering of a natural number, as produced by the fmt and
strconv packages for nonnegative integers. -/
def natToStr (n : Nat) : GoStr :=
  let rec go (fuel : Nat) (n : Nat) (acc : GoStr) : GoStr :=
    match fuel with
    | 0 => acc
    | fuel + 1 =>
      let d : Char := digitC (n % 10)
      if n < 10 then d :: acc else go fuel (n / 10) (d :: acc)
  go (n + 1) n []

/-- Decimal rendering of a Go integer (fmt.Sprintf with the d verb,
strconv.Itoa). -/
def intToStr (i : Int) : GoStr :=
  if i < 0 then '-' :: natToStr (-i).toNat else natToStr i.toNat

/-- Go interface values in binding and right-hand-side positions. Each
non-leaf constructor models one concrete Go type that the source code
inspects via type assertions. -/
inductive GoValue where
  | vNull
  | vInt (n : Int)
  | vStr (s : GoStr)
  | vBool (b : Bool)
  | vIndirect (ref : GoStr) (binds : List GoValue)
  | vIntList (ns : List Int)
  | vMap (entries : List (GoStr × GoValue))
  | vList (elems : List GoValue)
  | vJSONB (isArray : Bool) (binds : List GoValue)
  | vUpdateFn (name : GoStr) (args : List GoValue)

/-- Lexicographic comparison of Go strings, as used by sort.Strings. -/
def strLe : GoStr → GoStr → Bool
  | [], _ => true
  | _ :: _, [] => false
  | c :: a, d :: b => if c = d then strLe a b else decide (c < d)

/-- Insertion step of the sorting performed by sort.Strings. -/
def insertStr (x : GoStr) : List GoStr → List GoStr
  | [] => [x]
  | y :: ys => if strLe x y then x :: y :: ys else y :: insertStr x ys

/-- sort.Strings, modelled as insertion sort (the source only relies on the
sorted result). -/
def sortStrs : List GoStr → List GoStr
  | [] => []
  | x :: xs => insertStr x (sortStrs xs)

/-- sortKeys from sqlz.go: collect the keys of a map and sort them. -/
def sortKeys (m : List (GoStr × GoValue)) : List GoStr :=
  sortStrs (m.map Prod.fst)

/-- Go map indexing m[k]; a missing key yields the zero value, which for an
interface type is nil. -/
def mapGet (m : List (GoStr × GoValue)) (k : GoStr) : GoValue :=
  match m with
  | [] => .vNull
  | (k1, v) :: rest => if k1 = k then v else mapGet rest k

/-- OrderColumn from select.go: a column in an ORDER BY clause. -/
structure OrderColumn where
  column : GoStr
  desc : Bool

/-- ToSQL of an OrderColumn. -/
def orderColumnToSQL (o : OrderColumn) : GoStr :=
  if o.desc then o.column ++ " DESC".toList else o.column ++ " ASC".toList

/-- LockClause from select.go. Strength and wait are the integer constants
LockForUpdate.. and LockDefault.. from the source. -/
structure LockClause where
  strength : Int
  tables : List GoStr
  wait : Int

/-- Rendering of a lock strength; values outside the four constants make
the source skip the whole clause with a continue statement, modelled by
none. -/
def lockStrengthStr (s : Int) : Option GoStr :=
  if s = 0 then some "FOR UPDATE".toList
  else if s = 1 then some "FOR NO KEY UPDATE".toList
  else if s = 2 then some "FOR SHARE".toList
  else if s = 3 then some "FOR KEY SHARE".toList
  else none

/-- The locks loop of SelectStmt.ToSQL; yields one clause per rendered
lock. -/
def locksToSQL : List LockClause → List GoStr
  | [] => []
  | l :: rest =>
    match lockStrengthStr l.strength with
    | none => locksToSQL rest
    | some str =>
      let lockClause := [str]
        ++ (if l.tables.length > 0 then ["OF ".toList ++ goJoin ", ".toList l.tables] else [])
        ++ (if l.wait = 1 then ["NOWAIT".toList]
            else if l.wait = 2 then ["SKIP LOCKED".toList] else [])
      goJoin " ".toList lockClause :: locksToSQL rest

/-- JoinType.String from select.go: the keyword text of a join type, which
is indexed by the value modulo four and extended for lateral joins. -/
def joinTypeString (j : Nat) : GoStr :=
  let str :=
    (match j % 4 with
     | 0 => "INNER".toList
     | 1 => "LEFT".toList
     | 2 => "RIGHT".toList
     | _ => "FULL".toList) ++ " JOIN".toList
  if 4 ≤ j ∧ j ≤ 6 then str ++ " LATERAL".toList else str

mutual
/-- WhereCondition values from sqlz.go. The seven constructors are the
seven concrete condition types: SimpleCondition, SQLCondition,
ArrayCondition, InCondition, AndOrCondition, PreCondition and
SubqueryCondition. A nil Right in a SimpleCondition is the vNull value. -/
inductive WhereCondition where
  | simple (left : GoStr) (right : GoValue) (op : GoStr)
  | sqlCond (condition : GoStr) (binds : List GoValue)
  | arrayCond (left : GoValue) (op : GoStr) (typ : GoStr) (right : GoValue)
  | inCond (notIn : Bool) (left : GoStr) (right : List GoValue)
  | andOr (isOr : Bool) (conds : List WhereCondition)
  | pre (p : GoStr) (cond : WhereCondition)
  | subquery (stmt : SelectStmt) (op : GoStr)

/-- JoinClause from select.go. -/
inductive JoinClause where
  | mk (jtype : Nat) (table : GoStr) (resultSet : Option SelectStmt)
       (conds : List WhereCondition)

/-- SelectStmt from select.go, with the fields read by ToSQL, in source
order. The queryer field only matters for rebinding and execution and is
omitted (see the module comment). -/
inductive SelectStmt where
  | mk (isDistinct : Bool) (isUnionAll : Bool)
       (distinctColumns : List GoStr) (columns : List GoStr) (table : GoStr)
       (joins : List JoinClause) (conditions : List WhereCondition)
       (ordering : List OrderColumn) (grouping : List GoStr)
       (groupConditions : List WhereCondition) (unions : List SelectStmt)
       (locks : List LockClause)
       (limitTo : Int) (offsetFrom : Int) (offsetRows : Int)
       (nullsEnabled : Bool) (nullsFirst : Bool)
end

/-- Placeholder selection for the right value of a SimpleCondition: an
IndirectValue is spliced verbatim together with its own bindings, any
other value becomes a question mark placeholder with one binding. -/
def simplePlaceholder : GoValue → GoStr × List GoValue
  | .vIndirect ref binds => (ref, binds)
  | v => ("?".toList, [v])

/-- Left side handling of ArrayCondition.Parse: an IndirectValue is
spliced verbatim with its bindings, anything else is bound. -/
def arrayLeftSQL : GoValue → GoStr × List GoValue
  | .vIndirect ref binds => (ref, binds)
  | v => ("?".toList, [v])

/-- The Postgres array literal string built by ArrayCondition.Parse for a
[]int right-hand side. -/
def goIntListLit (ns : List Int) : GoStr :=
  ['\x27', '\x7b'] ++ goJoin ",".toList (ns.map intToStr) ++ ['\x7d', '\x27']

/-- Right side handling of ArrayCondition.Parse: a plain Go string is
spliced verbatim with no binding, a []int becomes one placeholder bound to
the array literal string, anything else is bound as a single value. -/
def arrayRightSQL : GoValue → GoStr × List GoValue
  | .vStr s => (s, [])
  | .vIntList ns => ("?".toList, [.vStr (goIntListLit ns)])
  | v => ("?".toList, [v])

/-- strings.HasPrefix(s, an opening parenthesis) as used by
parseConditions. -/
def goHasParenHead (s : GoStr) : Bool :=
  match s with
  | '(' :: _ => true
  | _ => false

/-- strings.TrimSuffix(s, a closing parenthesis). -/
def goTrimSfxParen (s : GoStr) : GoStr :=
  if s.getLast? = some ')' then s.dropLast else s

/-- strings.TrimPrefix(s, an opening parenthesis). -/
def goTrimPfxParen (s : GoStr) : GoStr :=
  match s with
  | '(' :: t => t
  | s => s

/-- The final lines of parseConditions: when the rendered text begins with
an opening parenthesis, one trailing closing parenthesis (if any) and the
leading opening parenthesis are removed. -/
def stripParens (r : GoStr × List GoValue) : GoStr × List GoValue :=
  if goHasParenHead r.1 then (goTrimPfxParen (goTrimSfxParen r.1), r.2) else r

/-- The non-recursive tail of AndOrCondition.Parse: given the already
parsed (SQL, bindings) pairs of the child conditions, join the SQL parts
with the AND or OR operator inside parentheses and concatenate the
bindings in order. -/
def andOrJoin (isOr : Bool) (results : List (GoStr × List GoValue)) :
    GoStr × List GoValue :=
  let op := if isOr then " OR ".toList else " AND ".toList
  ("(".toList ++ goJoin op (results.map Prod.fst) ++ ")".toList,
   (results.map Prod.snd).flatten)

mutual
/-- Parse of the WhereCondition interface from sqlz.go; dispatches on the
condition kind exactly as the seven Parse methods do. -/
def parseCond : WhereCondition → GoStr × List GoValue
  | .simple left right op =>
    match right with
    | .vNull => (left ++ " ".toList ++ op, [])
    | r =>
      (left ++ " ".toList ++ op ++ " ".toList ++ (simplePlaceholder r).1,
       (simplePlaceholder r).2)
  | .sqlCond condition binds => (condition, binds)
  | .arrayCond left op typ right =>
    ((arrayLeftSQL left).1 ++ " ".toList ++ op ++ " ".toList ++ typ
       ++ "(".toList ++ (arrayRightSQL right).1 ++ ")".toList,
     (arrayLeftSQL left).2 ++ (arrayRightSQL right).2)
  | .inCond notIn left right =>
    (left ++ (if notIn then " NOT".toList else []) ++ " IN (".toList
       ++ goJoin ", ".toList (right.map fun _ => "?".toList) ++ ")".toList,
     right)
  | .andOr isOr conds => andOrJoin isOr (parseCondPairs conds)
  | .pre p cond =>
    let r := parseCond cond
    (p ++ "(".toList ++ r.1 ++ ")".toList, r.2)
  | .subquery stmt op =>
    let r := selectToSQL stmt
    (op ++ " (".toList ++ r.1 ++ ")".toList, r.2)

/-- The loop inside AndOrCondition.Parse: parse each child condition,
collecting per-child SQL and bindings in order. -/
def parseCondPairs : List WhereCondition → List (GoStr × List GoValue)
  | [] => []
  | c :: cs => parseCond c :: parseCondPairs cs

/-- parseConditions from sqlz.go: zero conditions render empty, a single
condition delegates, several conditions render as wrapping the list in an
AndOrCondition with the Or flag unset; then, if the text begins with an
opening parenthesis, one trailing closing parenthesis (if any) and the
leading opening parenthesis are removed (stripParens). The multiple
conditions case lists two explicit head elements so that every recursive
call is on a strict subterm; it renders exactly Parse of the AND group. -/
def parseConditions (conds : List WhereCondition) : GoStr × List GoValue :=
  stripParens
    (match conds with
     | [] => ([], [])
     | [c] => parseCond c
     | c1 :: c2 :: rest =>
       andOrJoin false (parseCond c1 :: parseCond c2 :: parseCondPairs rest))

/-- The joins loop of SelectStmt.ToSQL: one (clause, bindings) pair per
join. For a join on a result set the sub-select SQL is parenthesized into
the clause and its bindings are appended before the ON bindings, exactly
as the comment in the source requires. -/
def joinsToSQL : List JoinClause → List (GoStr × List GoValue)
  | [] => []
  | .mk jtype table rs conds :: rest =>
    let onPair := parseConditions conds
    let p : GoStr × List GoValue :=
      match rs with
      | some s =>
        let r := selectToSQL s
        (joinTypeString jtype ++ " (".toList ++ r.1 ++ ") ".toList ++ table
           ++ " ON ".toList ++ onPair.1,
         r.2 ++ onPair.2)
      | none =>
        (joinTypeString jtype ++ " ".toList ++ table ++ " ON ".toList ++ onPair.1,
         onPair.2)
    p :: joinsToSQL rest

/-- The unions loop of SelectStmt.ToSQL. -/
def unionsToSQL (cmd : GoStr) : List SelectStmt → List (GoStr × List GoValue)
  | [] => []
  | u :: rest =>
    let r := selectToSQL u
    (cmd ++ " ".toList ++ r.1, r.2) :: unionsToSQL cmd rest

/-- SelectStmt.ToSQL from select.go (rebind false). The clause texts and
the bindings are accumulated in exactly the source order; each (clause,
bindings) pair below corresponds to one append of a clause in the source
together with the bindings appended around it. -/
def selectToSQL : SelectStmt → GoStr × List GoValue
  | .mk isDistinct isUnionAll distinctColumns columns table joins conditions
      ordering grouping groupConditions unions locks limitTo offsetFrom
      offsetRows nullsEnabled nullsFirst =>
    let pairs : List (GoStr × List GoValue) :=
      [("SELECT".toList, [])]
      ++ (if isDistinct then
            [("DISTINCT".toList, [])]
            ++ (if distinctColumns.length > 0 then
                  [("ON (".toList ++ goJoin ", ".toList distinctColumns ++ ")".toList, [])]
                else [])
          else [])
      ++ [(if columns.length = 0 then "*".toList else goJoin ", ".toList columns, [])]
      ++ [("FROM ".toList ++ table, [])]
      ++ joinsToSQL joins
      ++ (if conditions.length > 0 then
            [("WHERE ".toList ++ (parseConditions conditions).1,
              (parseConditions conditions).2)]
          else [])
      ++ (if grouping.length > 0 then
            [("GROUP BY ".toList ++ goJoin ", ".toList grouping, [])]
          else [])
      ++ (if groupConditions.length > 0 then
            [("HAVING ".toList ++ (parseConditions groupConditions).1,
              (parseConditions groupConditions).2)]
          else [])
      ++ (if ordering.length > 0 then
            [("ORDER BY ".toList ++ goJoin ", ".toList (ordering.map orderColumnToSQL), [])]
            ++ (if nullsEnabled then
                  [(if nullsFirst then "NULLS FIRST".toList else "NULLS LAST".toList, [])]
                else [])
          else [])
      ++ (if limitTo > 0 then [("LIMIT ".toList ++ intToStr limitTo, [])] else [])
      ++ (if offsetFrom > 0 then
            [("OFFSET ".toList ++ intToStr offsetFrom
                ++ (if offsetRows > 0 then " ".toList ++ intToStr offsetRows else []), [])]
          else [])
      ++ (locksToSQL locks).map (fun c => (c, []))
      ++ unionsToSQL ("UNION".toList ++ (if isUnionAll then " ALL".toList else []))
           unions
    (goJoin " ".toList (pairs.map Prod.fst), (pairs.map Prod.snd).flatten)
end

/-- DeleteStmt from delete.go, with the fields read by ToSQL. -/
structure DeleteStmt where
  table : GoStr
  conditions : List WhereCondition
  ret : List GoStr

/-- DeleteStmt.ToSQL from delete.go (rebind false). -/
def deleteToSQL (stmt : DeleteStmt) : GoStr × List GoValue :=
  let pairs : List (GoStr × List GoValue) :=
    [("DELETE FROM ".toList ++ stmt.table, [])]
    ++ (if stmt.conditions.length > 0 then
          [("WHERE ".toList ++ (parseConditions stmt.conditions).1,
            (parseConditions stmt.conditions).2)]
        else [])
    ++ (if stmt.ret.length > 0 then
          [("RETURNING ".toList ++ goJoin ", ".toList stmt.ret, [])]
        else [])
  (goJoin " ".toList (pairs.map Prod.fst), (pairs.map Prod.snd).flatten)

/-- The arguments loop for an UpdateFunction value in the SET list of
UpdateStmt.ToSQL: an IndirectValue argument is spliced verbatim with its
bindings, any other argument becomes a placeholder with one binding. -/
def updateFnArgs : List GoValue → List GoStr × List GoValue
  | [] => ([], [])
  | arg :: rest =>
    let r := updateFnArgs rest
    match arg with
    | .vIndirect ref binds => (ref :: r.1, binds ++ r.2)
    | v => ("?".toList :: r.1, v :: r.2)

/-- The SET assignments loop of UpdateStmt.ToSQL (also the DO UPDATE SET
loop of ConflictClause.ToSQL, which handles the identical three value
kinds): an UpdateFunction renders a function call over its arguments, an
IndirectValue is spliced verbatim, anything else becomes col = ? with one
binding. The input list is the sequence in which the Go map range (or the
SetCols/SetVals pair list for conflicts) yields entries. -/
def updateSetPairs : List (GoStr × GoValue) → List GoStr × List GoValue
  | [] => ([], [])
  | (col, val) :: rest =>
    let r := updateSetPairs rest
    match val with
    | .vUpdateFn name args =>
      let a := updateFnArgs args
      ((col ++ " = ".toList ++ name ++ "(".toList ++ goJoin ", ".toList a.1 ++ ")".toList) :: r.1,
       a.2 ++ r.2)
    | .vIndirect ref binds => ((col ++ " = ".toList ++ ref) :: r.1, binds ++ r.2)
    | v => ((col ++ " = ?".toList) :: r.1, v :: r.2)

/-- UpdateStmt from update.go. The Updates field is a Go map; since the
source iterates it directly with range (whose order the Go runtime leaves
unspecified and varies between iterations), the model carries the
iteration sequence the range loop yields. -/
structure UpdateStmt where
  table : GoStr
  updates : List (GoStr × GoValue)
  conditions : List WhereCondition
  ret : List GoStr
  selectStmt : Option SelectStmt
  selectStmtAlias : GoStr

/-- UpdateStmt.ToSQL from update.go (rebind false). Note that the source
appends the two FROM clause strings with their own trailing spaces, which
the final space join duplicates; this is reproduced faithfully. -/
def updateToSQL (stmt : UpdateStmt) : GoStr × List GoValue :=
  let su := updateSetPairs stmt.updates
  let fromPairs : List (GoStr × List GoValue) :=
    match stmt.selectStmt with
    | some sel =>
      if stmt.selectStmtAlias ≠ [] then
        [("FROM ".toList, []),
         ("(".toList ++ (selectToSQL sel).1 ++ ") AS ".toList
            ++ stmt.selectStmtAlias ++ " ".toList,
          (selectToSQL sel).2)]
      else []
    | none => []
  let pairs : List (GoStr × List GoValue) :=
    [("UPDATE ".toList ++ stmt.table, [])]
    ++ [("SET ".toList ++ goJoin ", ".toList su.1, su.2)]
    ++ fromPairs
    ++ (if stmt.conditions.length > 0 then
          [("WHERE ".toList ++ (parseConditions stmt.conditions).1,
            (parseConditions stmt.conditions).2)]
        else [])
    ++ (if stmt.ret.length > 0 then
          [("RETURNING ".toList ++ goJoin ", ".toList stmt.ret, [])]
        else [])
  (goJoin " ".toList (pairs.map Prod.fst), (pairs.map Prod.snd).flatten)

/-- The typed render failures of the UpdateStmt.ToSQL variant that
validates its input (ErrNoTable, ErrNoUpdates). -/
inductive UpdateRenderError where
  | noTable
  | noUpdates

/-- The validating UpdateStmt variant (the file with the ErrNoTable and
ErrNoUpdates errors). Updates is again carried as its iteration
sequence. -/
structure UpdateStmtOld where
  table : GoStr
  updates : List (GoStr × GoValue)
  conditions : List WhereCondition
  ret : List GoStr

/-- The SET loop of the validating UpdateStmt.ToSQL variant: every value
becomes col = ? with one binding. -/
def updateOldSetPairs : List (GoStr × GoValue) → List GoStr × List GoValue
  | [] => ([], [])
  | (col, val) :: rest =>
    let r := updateOldSetPairs rest
    ((col ++ " = ?".toList) :: r.1, val :: r.2)

/-- The validating UpdateStmt.ToSQL variant: an empty table name yields
ErrNoTable, an empty update map yields ErrNoUpdates, otherwise the
statement renders like the plain variant (without FROM support). -/
def updateOldToSQL (stmt : UpdateStmtOld) : Except UpdateRenderError (GoStr × List GoValue) :=
  if stmt.table = [] then .error .noTable
  else if stmt.updates.length = 0 then .error .noUpdates
  else
    let su := updateOldSetPairs stmt.updates
    let pairs : List (GoStr × List GoValue) :=
      [("UPDATE ".toList ++ stmt.table, [])]
      ++ [("SET ".toList ++ goJoin ", ".toList su.1, su.2)]
      ++ (if stmt.conditions.length > 0 then
            [("WHERE ".toList ++ (parseConditions stmt.conditions).1,
              (parseConditions stmt.conditions).2)]
          else [])
      ++ (if stmt.ret.length > 0 then
            [("RETURNING ".toList ++ goJoin ", ".toList stmt.ret, [])]
          else [])
    .ok (goJoin " ".toList (pairs.map Prod.fst), (pairs.map Prod.snd).flatten)

mutual
/-- Structural depth of a GoValue, used only as a termination measure for
the JSONB renderer below. -/
def gvDepth : GoValue → Nat
  | .vMap es => gvDepthEntries es + 1
  | .vList xs => gvDepthList xs + 1
  | .vIndirect _ bs => gvDepthList bs + 1
  | .vJSONB _ bs => gvDepthList bs + 1
  | .vUpdateFn _ args => gvDepthList args + 1
  | _ => 0

/-- Depth of a list of GoValues (the maximum element depth). -/
def gvDepthList : List GoValue → Nat
  | [] => 0
  | v :: rest => max (gvDepth v) (gvDepthList rest)

/-- Depth of a map content (the maximum value depth). -/
def gvDepthEntries : List (GoStr × GoValue) → Nat
  | [] => 0
  | (_, v) :: rest => max (gvDepth v) (gvDepthEntries rest)
end

/-- The loop of BuildJSONBObject over the sorted key list: each key
contributes the key itself (as a string value) followed by the looked up
map value. -/
def jsonbKeyVals (es : List (GoStr × GoValue)) : List GoStr → List GoValue
  | [] => []
  | k :: ks => .vStr k :: mapGet es k :: jsonbKeyVals es ks

/-- The Bindings list built by BuildJSONBObject from jsonb.go: keys are
sorted, and each key is followed by its value. -/
def buildJSONBObjectBinds (es : List (GoStr × GoValue)) : List GoValue :=
  jsonbKeyVals es (sortKeys es)

/-- BuildJSONBObject from jsonb.go: a JSONBBuilder in object form. -/
def buildJSONBObject (es : List (GoStr × GoValue)) : GoValue :=
  .vJSONB false (buildJSONBObjectBinds es)

/-- BuildJSONBArray from jsonb.go: a JSONBBuilder in array form over the
given elements. -/
def buildJSONBArray (xs : List GoValue) : GoValue :=
  .vJSONB true xs

theorem gvDepth_mapGet_le (ms : List (GoStr × GoValue)) (k : GoStr) :
    gvDepth (mapGet ms k) ≤ gvDepthEntries ms := by
  induction ms with
  | nil => simp [mapGet, gvDepth, gvDepthEntries]
  | cons hd tl ih =>
    obtain ⟨k1, v1⟩ := hd
    by_cases hk : k1 = k
    · simp [mapGet, hk, gvDepthEntries]
    · simp only [mapGet, if_neg hk, gvDepthEntries]
      exact le_trans ih (le_max_right _ _)

theorem gvDepthList_keyVals_le (es : List (GoStr × GoValue)) (ks : List GoStr) :
    gvDepthList (jsonbKeyVals es ks) ≤ gvDepthEntries es := by
  induction ks with
  | nil => simp [jsonbKeyVals, gvDepthList]
  | cons k ks ih =>
    have h1 := gvDepth_mapGet_le es k
    simp only [jsonbKeyVals, gvDepthList, gvDepth]
    rw [Nat.max_le, Nat.max_le]
    refine ⟨Nat.zero_le _, h1, ih⟩

mutual
/-- JSONBBuilder.Parse from jsonb.go: renders a jsonb build function call
over the builder bindings. -/
def jsonbParse (isArray : Bool) (binds : List GoValue) : GoStr × List GoValue :=
  let r := jsonbVals binds
  ("jsonb_build_".toList ++ (if isArray then "array(".toList else "object(".toList)
     ++ goJoin ", ".toList r.1 ++ ")".toList,
   r.2)
termination_by (gvDepthList binds, binds.length, 1)
decreasing_by
  exact Prod.Lex.right _ (Prod.Lex.right _ (by omega))

/-- The loop inside JSONBBuilder.Parse: a nested map value recurses
through BuildJSONBObject, a nested sequence recurses through
BuildJSONBArray, anything else becomes one placeholder with one
binding. -/
def jsonbVals : List GoValue → List GoStr × List GoValue
  | [] => ([], [])
  | v :: rest =>
    let r := jsonbVals rest
    match v with
    | .vMap es =>
      let s := jsonbParse false (buildJSONBObjectBinds es)
      (s.1 :: r.1, s.2 ++ r.2)
    | .vList xs =>
      let s := jsonbParse true xs
      (s.1 :: r.1, s.2 ++ r.2)
    | w => ("?".toList :: r.1, w :: r.2)
termination_by l => (gvDepthList l, l.length, 0)
decreasing_by
  · have hle : gvDepthList rest ≤ gvDepthList (arg :: rest) := by
      rw [gvDepthList]
      exact le_max_right _ _
    rcases lt_or_eq_of_le hle with h | h
    · exact Prod.Lex.left _ _ h
    · rw [h]
      refine Prod.Lex.right _ (Prod.Lex.left _ _ ?_)
      simp only [List.length_cons]
      omega
  · have h1 : gvDepthList (buildJSONBObjectBinds es) ≤ gvDepthEntries es :=
      gvDepthList_keyVals_le es (sortKeys es)
    have h2 : gvDepthList (GoValue.vMap es :: rest)
        = max (gvDepthEntries es + 1) (gvDepthList rest) := by
      rw [gvDepthList, gvDepth]
    exact Prod.Lex.left _ _ (by omega)
  · have h2 : gvDepthList (GoValue.vList xs :: rest)
        = max (gvDepthList xs + 1) (gvDepthList rest) := by
      rw [gvDepthList, gvDepth]
    exact Prod.Lex.left _ _ (by omega)
end

/-- ConflictClause from the INSERT statement source: an ON CONFLICT clause.
The action is a Go string constant (nothing, update, or empty when never
set); the Set, SetIf and SetMap builders keep SetCols and SetVals as two
parallel lists, modelled here as one list of pairs. The unused Updates
field of the struct is omitted. -/
structure ConflictClause where
  targets : List GoStr
  action : GoStr
  setPairs : List (GoStr × GoValue)

/-- ConflictClause.ToSQL: ON CONFLICT with optional targets, then DO
NOTHING, or DO UPDATE SET over the accumulated column/value pairs (with
the same three value kinds as the UPDATE SET loop), or nothing for an
unset action. -/
def conflictToSQL (c : ConflictClause) : GoStr × List GoValue :=
  let words : List GoStr :=
    ["ON CONFLICT".toList]
    ++ (if c.targets.length > 0 then
          ["(".toList ++ goJoin ", ".toList c.targets ++ ")".toList]
        else [])
  if c.action = "nothing".toList then
    (goJoin " ".toList (words ++ ["DO NOTHING".toList]), [])
  else if c.action = "update".toList then
    let su := updateSetPairs c.setPairs
    (goJoin " ".toList (words ++ ["DO UPDATE SET".toList]
       ++ [goJoin ", ".toList su.1]), su.2)
  else (goJoin " ".toList words, [])

/-- The conflicts loop of InsertStmt.ToSQL. -/
def conflictsToSQL : List ConflictClause → List (GoStr × List GoValue)
  | [] => []
  | c :: rest => conflictToSQL c :: conflictsToSQL rest

/-- parseInsertValues from the INSERT statement source: an IndirectValue
argument is spliced verbatim with its bindings, a JSONBBuilder is rendered
recursively with its bindings spliced in, anything else becomes one
placeholder with one binding. -/
def parseInsertValues : List GoValue → List GoStr × List GoValue
  | [] => ([], [])
  | val :: rest =>
    let r := parseInsertValues rest
    match val with
    | .vIndirect ref binds => (ref :: r.1, binds ++ r.2)
    | .vJSONB isArray bs =>
      let s := jsonbParse isArray bs
      (s.1 :: r.1, s.2 ++ r.2)
    | v => ("?".toList :: r.1, v :: r.2)

/-- The multi-row VALUES loop of InsertStmt.ToSQL. -/
def multipleValsToSQL : List (List GoValue) → List GoStr × List GoValue
  | [] => ([], [])
  | row :: rest =>
    let p := parseInsertValues row
    let r := multipleValsToSQL rest
    (("(".toList ++ goJoin ", ".toList p.1 ++ ")".toList) :: r.1, p.2 ++ r.2)

/-- InsertStmt from the INSERT statement source, with the fields read by
ToSQL. -/
structure InsertStmt where
  insCols : List GoStr
  insVals : List GoValue
  insMultipleVals : List (List GoValue)
  selectStmt : Option SelectStmt
  table : GoStr
  ret : List GoStr
  conflicts : List ConflictClause
  sqliteConflict : GoStr

/-- InsertStmt.ToSQL (rebind false): INSERT INTO (with the optional sqlite
OR resolution spliced into the first word), optional column list, then the
first populated row source in the order source SELECT, single VALUES row,
multi-row VALUES; then conflict clauses and RETURNING. -/
def insertToSQL (stmt : InsertStmt) : GoStr × List GoValue :=
  let firstWord : GoStr :=
    if stmt.sqliteConflict ≠ [] then "INSERT OR ".toList ++ stmt.sqliteConflict
    else "INSERT".toList
  let rowSource : List (GoStr × List GoValue) :=
    match stmt.selectStmt with
    | some sel => [((selectToSQL sel).1, (selectToSQL sel).2)]
    | none =>
      if stmt.insVals.length > 0 then
        [("VALUES (".toList ++ goJoin ", ".toList (parseInsertValues stmt.insVals).1
            ++ ")".toList,
          (parseInsertValues stmt.insVals).2)]
      else if stmt.insMultipleVals.length > 0 then
        [("VALUES ".toList ++ goJoin ", ".toList (multipleValsToSQL stmt.insMultipleVals).1,
          (multipleValsToSQL stmt.insMultipleVals).2)]
      else []
  let pairs : List (GoStr × List GoValue) :=
    [(firstWord, []), ("INTO".toList, []), (stmt.table, [])]
    ++ (if stmt.insCols.length > 0 then
          [("(".toList ++ goJoin ", ".toList stmt.insCols ++ ")".toList, [])]
        else [])
    ++ rowSource
    ++ conflictsToSQL stmt.conflicts
    ++ (if stmt.ret.length > 0 then
          [("RETURNING ".toList ++ goJoin ", ".toList stmt.ret, [])]
        else [])
  (goJoin " ".toList (pairs.map Prod.fst), (pairs.map Prod.snd).flatten)

/-- Heap cells for the aliasing model of GetCount: the content of one Go
slice backing array, of any of the slice element types a SelectStmt
holds. -/
inductive Slot where
  | strs (xs : List GoStr)
  | conds (cs : List WhereCondition)
  | joins (js : List JoinClause)
  | orders (os : List OrderColumn)
  | sels (ss : List SelectStmt)
  | lockList (ls : List LockClause)

/-- A heap of slice backing arrays: a partial map from locations to slot
contents together with the next fresh location. -/
structure Heap where
  data : Nat → Option Slot
  next : Nat

/-- Allocation of a fresh backing array holding the given content. -/
def Heap.alloc (h : Heap) (s : Slot) : Nat × Heap :=
  (h.next, ⟨fun n => if n = h.next then some s else h.data n, h.next + 1⟩)

/-- A heap is well formed when nothing is stored at or beyond the next
fresh location. -/
def Heap.wf (h : Heap) : Prop :=
  ∀ n, h.next ≤ n → h.data n = none

/-- The memory level view of a SelectStmt: scalar fields inline, every
slice typed field a location of its backing array in the heap. A Go struct
copy copies these locations, so the copy and the original alias the same
backing arrays until a field is reassigned. -/
structure SelectStmtRef where
  isDistinct : Bool
  isUnionAll : Bool
  distinctColumns : Nat
  columns : Nat
  table : GoStr
  joins : Nat
  conditions : Nat
  ordering : Nat
  grouping : Nat
  groupConditions : Nat
  unions : Nat
  locks : Nat
  limitTo : Int
  offsetFrom : Int
  offsetRows : Int
  nullsEnabled : Bool
  nullsFirst : Bool

/-- The statement derivation performed by GetCount from select.go: copy
the struct, point Columns at a freshly allocated one element array holding
COUNT(*), zero LimitTo, OffsetFrom and OffsetRows, and point Ordering at a
freshly allocated empty array. Nothing is ever written through the copied
locations, so the original statement and all its backing storage are
untouched. -/
def getCountStmt (stmt : SelectStmtRef) (h : Heap) : SelectStmtRef × Heap :=
  let countStmt := stmt
  let a1 := h.alloc (.strs ["COUNT(*)".toList])
  let countStmt := { countStmt with
    columns := a1.1, limitTo := 0, offsetFrom := 0, offsetRows := 0 }
  let a2 := a1.2.alloc (.orders [])
  ({ countStmt with ordering := a2.1 }, a2.2)

/-- Reading a list of strings backing array out of the heap. -/
def Heap.strsAt (h : Heap) (n : Nat) : Option (List GoStr) :=
  match h.data n with
  | some (.strs xs) => some xs
  | _ => none

/-- Reading a conditions backing array out of the heap. -/
def Heap.condsAt (h : Heap) (n : Nat) : Option (List WhereCondition) :=
  match h.data n with
  | some (.conds cs) => some cs
  | _ => none

/-- Reading a joins backing array out of the heap. -/
def Heap.joinsAt (h : Heap) (n : Nat) : Option (List JoinClause) :=
  match h.data n with
  | some (.joins js) => some js
  | _ => none

/-- Reading an ordering backing array out of the heap. -/
def Heap.ordersAt (h : Heap) (n : Nat) : Option (List OrderColumn) :=
  match h.data n with
  | some (.orders os) => some os
  | _ => none

/-- Reading a unions backing array out of the heap. -/
def Heap.selsAt (h : Heap) (n : Nat) : Option (List SelectStmt) :=
  match h.data n with
  | some (.sels ss) => some ss
  | _ => none

/-- Reading a locks backing array out of the heap. -/
def Heap.locksAt (h : Heap) (n : Nat) : Option (List LockClause) :=
  match h.data n with
  | some (.lockList ls) => some ls
  | _ => none

/-- Dereferencing a memory level SelectStmt into the value level
SelectStmt that the renderer consumes; fails if any slice field does not
point at a backing array of its type. -/
def readback (s : SelectStmtRef) (h : Heap) : Option SelectStmt :=
  match h.strsAt s.distinctColumns, h.strsAt s.columns, h.joinsAt s.joins,
    h.condsAt s.conditions, h.ordersAt s.ordering, h.strsAt s.grouping,
    h.condsAt s.groupConditions, h.selsAt s.unions, h.locksAt s.locks with
  | some dc, some cols, some js, some cs, some os, some gs, some gcs,
      some us, some ls =>
    some (.mk s.isDistinct s.isUnionAll dc cols s.table js cs os gs gcs us ls
      s.limitTo s.offsetFrom s.offsetRows s.nullsEnabled s.nullsFirst)
  | _, _, _, _, _, _, _, _, _ => none

example :
    parseCond (.simple "id".toList (.vInt 1) "=".toList) = ("id = ?".toList, [.vInt 1]) :=
  rfl

example :
    (parseConditions
      [.simple "integer-col".toList (.vInt 2) "=".toList,
       .simple "string-col".toList (.vStr "string".toList) "=".toList,
       .simple "real-col".toList (.vInt 3) ">".toList]).1
    = "integer-col = ? AND string-col = ? AND real-col > ?".toList :=
  rfl

example :
    selectToSQL (.mk false false [] ["id".toList, "name".toList] "table".toList
      [] [.simple "integer-col".toList (.vInt 2) "=".toList] [] [] [] [] [] 0 0 0 false false)
    = ("SELECT id, name FROM table WHERE integer-col = ?".toList, [.vInt 2]) :=
  rfl

example :
    selectToSQL (.mk false false [] ["*".toList] "table".toList
      [.mk 1 "left-table".toList none
         [.simple "left-col".toList (.vIndirect "our-col".toList []) "=".toList],
       .mk 2 "right-table".toList none
         [.simple "right-col".toList (.vIndirect "our-col".toList []) "=".toList]]
      [] [] [] [] [] [] 0 0 0 false false)
    = (("SELECT * FROM table LEFT JOIN left-table ON left-col = our-col "
        ++ "RIGHT JOIN right-table ON right-col = our-col").toList, []) :=
  rfl

example :
    selectToSQL (.mk false false [] ["*".toList] "table".toList []
      [.arrayCond (.vInt 3) "=".toList "ANY".toList (.vStr "array_col".toList),
       .arrayCond (.vInt 1) ">".toList "ALL".toList (.vStr "other_array_col".toList),
       .arrayCond (.vIndirect "NOW()".toList []) "<>".toList "ANY".toList
         (.vStr "yet_another_col".toList),
       .arrayCond (.vIndirect "column".toList []) "=".toList "ANY".toList
         (.vIntList [1, 2, 3])]
      [] [] [] [] [] 0 0 0 false false)
    = (("SELECT * FROM table WHERE ? = ANY(array_col) AND ? > ALL(other_array_col) "
        ++ "AND NOW() <> ANY(yet_another_col) AND column = ANY(?)").toList,
       [.vInt 3, .vInt 1, .vStr "\x27\x7b1,2,3\x7d\x27".toList]) :=
  rfl

example :
    deleteToSQL ⟨"table".toList,
      [.andOr true [.simple "id".toList (.vInt 1) "=".toList,
        .andOr false [.simple "name".toList (.vStr "some-name".toList) "=".toList,
          .simple "integer".toList (.vInt 3) ">".toList]]], []⟩
    = ("DELETE FROM table WHERE id = ? OR (name = ? AND integer > ?)".toList,
       [.vInt 1, .vStr "some-name".toList, .vInt 3]) :=
  rfl

example :
    updateToSQL ⟨"table".toList,
      [("something".toList, .vInt 3),
       ("things".toList, .vUpdateFn "array_append".toList
          [.vIndirect "things".toList [], .vStr "asdf".toList])],
      [], [], none, []⟩
    = ("UPDATE table SET something = ?, things = array_append(things, ?)".toList,
       [.vInt 3, .vStr "asdf".toList]) :=
  rfl

example :
    updateToSQL ⟨"table".toList,
      [("something".toList,
        .vIndirect "replace(something, ?, \x27\x27)".toList [.vStr "prefix/".toList])],
      [], [], none, []⟩
    = ("UPDATE table SET something = replace(something, ?, \x27\x27)".toList,
       [.vStr "prefix/".toList]) :=
  rfl

example :
    insertToSQL ⟨["id".toList, "name".toList], [.vInt 1, .vStr "My Name".toList],
      [], none, "table".toList, [], [], []⟩
    = ("INSERT INTO table (id, name) VALUES (?, ?)".toList,
       [.vInt 1, .vStr "My Name".toList]) :=
  rfl

example :
    insertToSQL ⟨["name".toList], [.vStr "x".toList], [], none, "table".toList, [],
      [⟨["name".toList], "update".toList,
        [("x".toList, .vInt 1), ("y".toList, .vInt 2)]⟩], []⟩
    = ("INSERT INTO table (name) VALUES (?) ON CONFLICT (name) DO UPDATE SET x = ?, y = ?".toList,
       [.vStr "x".toList, .vInt 1, .vInt 2]) :=
  rfl

/-- Claim C10: for an ArrayCondition whose right value is a plain Go string,
Parse splices the string verbatim inside QUANT(...) with no placeholder and
no binding for it (the bindings are exactly the left side bindings); for a
right value of type []int, Parse renders a single question mark placeholder
and appends exactly one binding, the Postgres array literal string built
from the elements in order. -/
theorem arrayCond_string_raw_intlist_bound :
    ∀ (l : GoValue) (op typ s : GoStr) (ns : List Int),
      parseCond (.arrayCond l op typ (.vStr s))
        = ((arrayLeftSQL l).1 ++ " ".toList ++ op ++ " ".toList ++ typ
             ++ "(".toList ++ s ++ ")".toList,
           (arrayLeftSQL l).2)
      ∧ parseCond (.arrayCond l op typ (.vIntList ns))
        = ((arrayLeftSQL l).1 ++ " ".toList ++ op ++ " ".toList ++ typ
             ++ "(?)".toList,
           (arrayLeftSQL l).2
             ++ [.vStr (['\x27', '\x7b'] ++ goJoin ",".toList (ns.map intToStr)
                   ++ ['\x7d', '\x27'])]) := by
  intro l op typ s ns
  constructor
  · simp [parseCond, arrayRightSQL]
  · simp [parseCond, arrayRightSQL, goIntListLit]

/-- Claim C3 counterexample: on the single raw SQL condition
(a = ?) OR (b = ?), parseConditions removes the leading opening parenthesis
and the trailing closing parenthesis even though they are not a matching
pair, so the result differs from the condition Parse output even though no
redundant outermost matched pair exists. -/
theorem parseConditions_strip_nonmatching :
    (parseConditions [.sqlCond "(a = ?) OR (b = ?)".toList [.vInt 1, .vInt 2]]).1
      = "a = ?) OR (b = ?".toList
    ∧ (parseConditions [.sqlCond "(a = ?) OR (b = ?)".toList [.vInt 1, .vInt 2]]).1
      ≠ (parseCond (.sqlCond "(a = ?) OR (b = ?)".toList [.vInt 1, .vInt 2])).1 := by
  exact ⟨rfl, by decide⟩

/-- Claim C3 amended: parseConditions renders the empty list as empty SQL
with no bindings, delegates a one element list to that condition Parse, and
renders two or more conditions as Parse of the AND group; afterwards, when
the text begins with an opening parenthesis, the final character is removed
when it is a closing parenthesis and then the leading opening parenthesis
is removed, with no check that the two removed characters form a matching
pair. Bindings are never changed by the stripping. -/
theorem parseConditions_cases_and_strip :
    parseConditions [] = ([], [])
    ∧ (∀ c, parseConditions [c] = stripParens (parseCond c))
    ∧ (∀ c1 c2 rest, parseConditions (c1 :: c2 :: rest)
        = stripParens (parseCond (.andOr false (c1 :: c2 :: rest))))
    ∧ (∀ t bs, stripParens ('(' :: t, bs)
        = ((if t.getLast? = some ')' then t.dropLast else t), bs))
    ∧ (∀ s bs, goHasParenHead s = false → stripParens (s, bs) = (s, bs)) := by
  refine ⟨rfl, fun c => rfl, fun c1 c2 rest => rfl, ?_, ?_⟩
  · intro t bs
    match t with
    | [] => rfl
    | a :: t1 =>
      simp only [stripParens, goHasParenHead, goTrimSfxParen, goTrimPfxParen,
        List.getLast?_cons_cons, if_true]
      by_cases h : (a :: t1).getLast? = some ')'
      · simp [h, List.dropLast_cons₂]
      · simp [h]
  · intro s bs h
    simp [stripParens, h]

/-- Claim C4: with the SET assignments accumulated as the Go map
\x7bsomething: 3, other: 2\x7d, the range loop of UpdateStmt.ToSQL may yield the
entries in the order something, other (Go map iteration order is
unspecified), in which case the statement renders with something before
other, while the ascending lexicographic order that the specification and
the repository test suite require puts other first; the code performs no
sorting of the update columns. -/
theorem updateToSQL_not_sorted :
    updateToSQL ⟨"table".toList,
        [("something".toList, .vInt 3), ("other".toList, .vInt 2)], [], [], none, []⟩
      = ("UPDATE table SET something = ?, other = ?".toList, [.vInt 3, .vInt 2])
    ∧ sortKeys [("something".toList, .vInt 3), ("other".toList, .vInt 2)]
      = ["other".toList, "something".toList]
    ∧ ("UPDATE table SET something = ?, other = ?".toList : GoStr)
      ≠ "UPDATE table SET other = ?, something = ?".toList := by
  exact ⟨rfl, rfl, by decide⟩

/-- Claim C5: two range iterations over the same Updates map may yield its
two entries in opposite orders (the two sequences are permutations of one
another, and Go leaves the iteration order unspecified and varying between
iterations), and UpdateStmt.ToSQL then returns different SQL strings for
the same unmutated statement, refuting byte identical repeated renders. -/
theorem updateToSQL_iteration_order_dependent :
    ([("a".toList, GoValue.vInt 1), ("b".toList, GoValue.vInt 2)]).Perm
      [("b".toList, GoValue.vInt 2), ("a".toList, GoValue.vInt 1)]
    ∧ (updateToSQL ⟨"t".toList,
         [("a".toList, .vInt 1), ("b".toList, .vInt 2)], [], [], none, []⟩).1
      ≠ (updateToSQL ⟨"t".toList,
         [("b".toList, .vInt 2), ("a".toList, .vInt 1)], [], [], none, []⟩).1 := by
  exact ⟨List.Perm.swap _ _ _, by decide⟩

/-- Claim C9 counterexample: the UpdateStmt.ToSQL of update.go has no error
result at all; on a statement with no table and no SET assignments it
returns the malformed string UPDATE  SET (with no typed failure), refuting
the claim that every render of a statement missing a required attribute
surfaces a distinct invalid statement failure. -/
theorem updateToSQL_no_validation :
    updateToSQL ⟨[], [], [], [], none, []⟩ = ("UPDATE  SET ".toList, []) := by
  rfl

/-- Claim C9 amended: only the validating variant of UpdateStmt.ToSQL (the
one with the ErrNoTable and ErrNoUpdates errors) surfaces typed render time
failures: no table yields ErrNoTable, no updates yields ErrNoUpdates, and
otherwise rendering succeeds; the current update.go variant returns no
error and renders malformed SQL instead. Configuration calls never fail in
either variant. -/
theorem updateOldToSQL_validates :
    (∀ stmt : UpdateStmtOld, stmt.table = [] → updateOldToSQL stmt = .error .noTable)
    ∧ (∀ stmt : UpdateStmtOld, stmt.table ≠ [] → stmt.updates = [] →
        updateOldToSQL stmt = .error .noUpdates)
    ∧ (∀ stmt : UpdateStmtOld, stmt.table ≠ [] → stmt.updates ≠ [] →
        ∃ r, updateOldToSQL stmt = .ok r) := by
  refine ⟨?_, ?_, ?_⟩
  · intro stmt h
    simp [updateOldToSQL, h]
  · intro stmt h1 h2
    simp [updateOldToSQL, h1, h2]
  · intro stmt h1 h2
    have h3 : ¬ stmt.updates.length = 0 := by
      simpa [List.length_eq_zero] using h2
    simp only [updateOldToSQL, if_neg h1, if_neg h3]
    exact ⟨_, rfl⟩

/-- Claim C9 witness: the amended theorem applied at concrete statements of
each kind. -/
theorem updateOldToSQL_validates_witness :
    updateOldToSQL ⟨[], [("a".toList, .vInt 1)], [], []⟩ = .error .noTable
    ∧ updateOldToSQL ⟨"t".toList, [], [], []⟩ = .error .noUpdates
    ∧ ∃ r, updateOldToSQL ⟨"t".toList, [("a".toList, .vInt 1)], [], []⟩ = .ok r := by
  refine ⟨?_, ?_, ?_⟩
  · exact updateOldToSQL_validates.1 ⟨[], [("a".toList, .vInt 1)], [], []⟩ rfl
  · exact updateOldToSQL_validates.2.1 ⟨"t".toList, [], [], []⟩
      (List.cons_ne_nil _ _) rfl
  · exact updateOldToSQL_validates.2.2 ⟨"t".toList, [("a".toList, .vInt 1)], [], []⟩
      (List.cons_ne_nil _ _) (List.cons_ne_nil _ _)

/-- Claim C6: when a source SELECT is configured on an INSERT statement,
InsertStmt.ToSQL renders exactly as if the literal value tuples (single row
and multi row) were absent: the SELECT branch of the row source switch wins,
the rendered SQL splices the sub select text with no VALUES clause, and the
bindings are the sub select bindings followed by the conflict clause
bindings, with no literal value binding. -/
theorem insertToSQL_select_priority :
    ∀ (cols : List GoStr) (vals : List GoValue) (mvals : List (List GoValue))
      (sel : SelectStmt) (table : GoStr) (ret : List GoStr)
      (conflicts : List ConflictClause) (sc : GoStr),
      insertToSQL ⟨cols, vals, mvals, some sel, table, ret, conflicts, sc⟩
        = insertToSQL ⟨cols, [], [], some sel, table, ret, conflicts, sc⟩
      ∧ (insertToSQL ⟨cols, vals, mvals, some sel, table, ret, conflicts, sc⟩).2
        = (selectToSQL sel).2 ++ ((conflictsToSQL conflicts).map Prod.snd).flatten
      ∧ (insertToSQL ⟨cols, vals, mvals, some sel, table, ret, conflicts, sc⟩).1
        = goJoin " ".toList
            ([(if sc ≠ [] then "INSERT OR ".toList ++ sc else "INSERT".toList),
              "INTO".toList, table]
             ++ (if cols.length > 0 then
                   ["(".toList ++ goJoin ", ".toList cols ++ ")".toList]
                 else [])
             ++ [(selectToSQL sel).1]
             ++ (conflictsToSQL conflicts).map Prod.fst
             ++ (if ret.length > 0 then
                   ["RETURNING ".toList ++ goJoin ", ".toList ret]
                 else [])) := by
  intro cols vals mvals sel table ret conflicts sc
  refine ⟨rfl, ?_, ?_⟩
  · by_cases hc : 0 < cols.length <;> by_cases hr : 0 < ret.length <;>
      simp [insertToSQL, hc, hr]
  · by_cases hc : 0 < cols.length <;> by_cases hr : 0 < ret.length <;>
      simp [insertToSQL, hc, hr]

theorem flatten_map_snd_if (P : Prop) [Decidable P] (l1 l2 : List (GoStr × List GoValue)) :
    ((if P then l1 else l2).map Prod.snd).flatten
      = if P then (l1.map Prod.snd).flatten else (l2.map Prod.snd).flatten := by
  split <;> rfl

/-- Claim C2: a join on a result set renders its clause with the sub select
bindings placed before the ON condition bindings (first conjunct); the
bindings of a full SELECT render are the join pair bindings in join order,
then the WHERE bindings, the HAVING bindings and the union bindings, so the
sub select bindings of a join precede every WHERE binding (second
conjunct); and the concrete inner join on a second SELECT aliased b with ON
condition a.id = b.id (right side Indirect) and outer WHERE a.id = 1
renders with the inner SELECT binding before the WHERE binding (third
conjunct). -/
theorem selectToSQL_join_resultset_binding_order :
    (∀ (jtype : Nat) (table : GoStr) (s : SelectStmt) (conds : List WhereCondition)
       (rest : List JoinClause),
       joinsToSQL (.mk jtype table (some s) conds :: rest)
         = (joinTypeString jtype ++ " (".toList ++ (selectToSQL s).1 ++ ") ".toList
              ++ table ++ " ON ".toList ++ (parseConditions conds).1,
            (selectToSQL s).2 ++ (parseConditions conds).2) :: joinsToSQL rest)
    ∧ (∀ (isDistinct isUnionAll : Bool) (distinctColumns columns : List GoStr)
         (table : GoStr) (joins : List JoinClause) (conditions : List WhereCondition)
         (ordering : List OrderColumn) (grouping : List GoStr)
         (groupConditions : List WhereCondition) (unions : List SelectStmt)
         (locks : List LockClause) (limitTo offsetFrom offsetRows : Int)
         (nullsEnabled nullsFirst : Bool),
         (selectToSQL (.mk isDistinct isUnionAll distinctColumns columns table joins
             conditions ordering grouping groupConditions unions locks
             limitTo offsetFrom offsetRows nullsEnabled nullsFirst)).2
           = ((joinsToSQL joins).map Prod.snd).flatten
             ++ (if 0 < conditions.length then (parseConditions conditions).2 else [])
             ++ (if 0 < groupConditions.length then (parseConditions groupConditions).2 else [])
             ++ ((unionsToSQL ("UNION".toList ++ (if isUnionAll then " ALL".toList else []))
                   unions).map Prod.snd).flatten)
    ∧ selectToSQL (.mk false false [] ["a.id, a.value".toList] "table a".toList
        [.mk 0 "b".toList
          (some (.mk false false [] ["id".toList] "table".toList []
            [.simple "value".toList (.vInt 5) ">".toList] [] [] [] [] [] 0 0 0 false false))
          [.simple "a.id".toList (.vIndirect "b.id".toList []) "=".toList]]
        [.simple "a.id".toList (.vInt 1) "=".toList] [] [] [] [] [] 0 0 0 false false)
      = (("SELECT a.id, a.value FROM table a INNER JOIN "
          ++ "(SELECT id FROM table WHERE value > ?) b ON a.id = b.id "
          ++ "WHERE a.id = ?").toList,
         [.vInt 5, .vInt 1]) := by
  refine ⟨fun jtype table s conds rest => rfl, ?_, rfl⟩
  intro isDistinct isUnionAll distinctColumns columns table joins conditions ordering
    grouping groupConditions unions locks limitTo offsetFrom offsetRows
    nullsEnabled nullsFirst
  simp [selectToSQL, flatten_map_snd_if]

theorem getCount_frame (s : SelectStmtRef) (h : Heap) (n : Nat) (hn : n < h.next) :
    ((getCountStmt s h).2).data n = h.data n := by
  simp only [getCountStmt, Heap.alloc]
  rw [if_neg (by omega), if_neg (by omega)]

theorem getCount_data_pres (s : SelectStmtRef) (h : Heap) (hw : Heap.wf h)
    (n : Nat) (sl : Slot) (hd : h.data n = some sl) :
    ((getCountStmt s h).2).data n = some sl := by
  have hn : n < h.next := by
    by_contra hnn
    rw [hw n (Nat.le_of_not_lt hnn)] at hd
    exact Option.noConfusion hd
  rw [getCount_frame s h n hn, hd]

theorem getCount_strsAt_pres (s : SelectStmtRef) (h : Heap) (hw : Heap.wf h)
    (n : Nat) (xs : List GoStr) (hx : h.strsAt n = some xs) :
    ((getCountStmt s h).2).strsAt n = some xs := by
  rcases hd : h.data n with _ | sl
  · rw [Heap.strsAt, hd] at hx
    exact Option.noConfusion hx
  · rw [Heap.strsAt, getCount_data_pres s h hw n sl hd]
    rw [Heap.strsAt, hd] at hx
    exact hx

theorem getCount_condsAt_pres (s : SelectStmtRef) (h : Heap) (hw : Heap.wf h)
    (n : Nat) (xs : List WhereCondition) (hx : h.condsAt n = some xs) :
    ((getCountStmt s h).2).condsAt n = some xs := by
  rcases hd : h.data n with _ | sl
  · rw [Heap.condsAt, hd] at hx
    exact Option.noConfusion hx
  · rw [Heap.condsAt, getCount_data_pres s h hw n sl hd]
    rw [Heap.condsAt, hd] at hx
    exact hx

theorem getCount_joinsAt_pres (s : SelectStmtRef) (h : Heap) (hw : Heap.wf h)
    (n : Nat) (xs : List JoinClause) (hx : h.joinsAt n = some xs) :
    ((getCountStmt s h).2).joinsAt n = some xs := by
  rcases hd : h.data n with _ | sl
  · rw [Heap.joinsAt, hd] at hx
    exact Option.noConfusion hx
  · rw [Heap.joinsAt, getCount_data_pres s h hw n sl hd]
    rw [Heap.joinsAt, hd] at hx
    exact hx

theorem getCount_ordersAt_pres (s : SelectStmtRef) (h : Heap) (hw : Heap.wf h)
    (n : Nat) (xs : List OrderColumn) (hx : h.ordersAt n = some xs) :
    ((getCountStmt s h).2).ordersAt n = some xs := by
  rcases hd : h.data n with _ | sl
  · rw [Heap.ordersAt, hd] at hx
    exact Option.noConfusion hx
  · rw [Heap.ordersAt, getCount_data_pres s h hw n sl hd]
    rw [Heap.ordersAt, hd] at hx
    exact hx

theorem getCount_selsAt_pres (s : SelectStmtRef) (h : Heap) (hw : Heap.wf h)
    (n : Nat) (xs : List SelectStmt) (hx : h.selsAt n = some xs) :
    ((getCountStmt s h).2).selsAt n = some xs := by
  rcases hd : h.data n with _ | sl
  · rw [Heap.selsAt, hd] at hx
    exact Option.noConfusion hx
  · rw [Heap.selsAt, getCount_data_pres s h hw n sl hd]
    rw [Heap.selsAt, hd] at hx
    exact hx

theorem getCount_locksAt_pres (s : SelectStmtRef) (h : Heap) (hw : Heap.wf h)
    (n : Nat) (xs : List LockClause) (hx : h.locksAt n = some xs) :
    ((getCountStmt s h).2).locksAt n = some xs := by
  rcases hd : h.data n with _ | sl
  · rw [Heap.locksAt, hd] at hx
    exact Option.noConfusion hx
  · rw [Heap.locksAt, getCount_data_pres s h hw n sl hd]
    rw [Heap.locksAt, hd] at hx
    exact hx

theorem getCount_columnsAt (s : SelectStmtRef) (h : Heap) :
    ((getCountStmt s h).2).strsAt ((getCountStmt s h).1).columns
      = some ["COUNT(*)".toList] := by
  simp [getCountStmt, Heap.alloc, Heap.strsAt]

theorem getCount_orderingAt (s : SelectStmtRef) (h : Heap) :
    ((getCountStmt s h).2).ordersAt ((getCountStmt s h).1).ordering
      = some [] := by
  simp [getCountStmt, Heap.alloc, Heap.ordersAt]

/-- Claim C8: the statement GetCount derives replaces the columns by the
single COUNT(*) expression, zeroes LimitTo, OffsetFrom and OffsetRows and
clears the Ordering, while its distinct flags, table, joins, where
conditions, grouping, having conditions, unions and locks are read back
verbatim from the same backing arrays (third conjunct); GetCount writes no
existing heap cell, only allocating fresh backing arrays (first conjunct),
so the original statement, read back after GetCount with all of its
backing storage, is unchanged (second conjunct). -/
theorem getCountStmt_derives_and_preserves :
    ∀ (s : SelectStmtRef) (h : Heap),
      (∀ n, n < h.next → ((getCountStmt s h).2).data n = h.data n)
      ∧ (∀ t : SelectStmt, Heap.wf h → readback s h = some t →
          readback s (getCountStmt s h).2 = some t)
      ∧ (∀ (dc cols : List GoStr) (js : List JoinClause)
           (cs : List WhereCondition) (os : List OrderColumn)
           (gs : List GoStr) (gcs : List WhereCondition)
           (us : List SelectStmt) (ls : List LockClause),
           Heap.wf h →
           h.strsAt s.distinctColumns = some dc →
           h.strsAt s.columns = some cols →
           h.joinsAt s.joins = some js →
           h.condsAt s.conditions = some cs →
           h.ordersAt s.ordering = some os →
           h.strsAt s.grouping = some gs →
           h.condsAt s.groupConditions = some gcs →
           h.selsAt s.unions = some us →
           h.locksAt s.locks = some ls →
           readback (getCountStmt s h).1 (getCountStmt s h).2
             = some (.mk s.isDistinct s.isUnionAll dc ["COUNT(*)".toList] s.table
                 js cs [] gs gcs us ls 0 0 0 s.nullsEnabled s.nullsFirst)) := by
  intro s h
  refine ⟨fun n hn => getCount_frame s h n hn, ?_, ?_⟩
  · intro t hw hr
    rcases h1 : h.strsAt s.distinctColumns with _ | dc
    · rw [readback, h1] at hr; exact Option.noConfusion hr
    rcases h2 : h.strsAt s.columns with _ | cols
    · rw [readback, h1, h2] at hr; exact Option.noConfusion hr
    rcases h3 : h.joinsAt s.joins with _ | js
    · rw [readback, h1, h2, h3] at hr; exact Option.noConfusion hr
    rcases h4 : h.condsAt s.conditions with _ | cs
    · rw [readback, h1, h2, h3, h4] at hr; exact Option.noConfusion hr
    rcases h5 : h.ordersAt s.ordering with _ | os
    · rw [readback, h1, h2, h3, h4, h5] at hr; exact Option.noConfusion hr
    rcases h6 : h.strsAt s.grouping with _ | gs
    · rw [readback, h1, h2, h3, h4, h5, h6] at hr; exact Option.noConfusion hr
    rcases h7 : h.condsAt s.groupConditions with _ | gcs
    · rw [readback, h1, h2, h3, h4, h5, h6, h7] at hr; exact Option.noConfusion hr
    rcases h8 : h.selsAt s.unions with _ | us
    · rw [readback, h1, h2, h3, h4, h5, h6, h7, h8] at hr; exact Option.noConfusion hr
    rcases h9 : h.locksAt s.locks with _ | ls
    · rw [readback, h1, h2, h3, h4, h5, h6, h7, h8, h9] at hr
      exact Option.noConfusion hr
    rw [readback, h1, h2, h3, h4, h5, h6, h7, h8, h9] at hr
    rw [readback,
      getCount_strsAt_pres s h hw _ _ h1,
      getCount_strsAt_pres s h hw _ _ h2,
      getCount_joinsAt_pres s h hw _ _ h3,
      getCount_condsAt_pres s h hw _ _ h4,
      getCount_ordersAt_pres s h hw _ _ h5,
      getCount_strsAt_pres s h hw _ _ h6,
      getCount_condsAt_pres s h hw _ _ h7,
      getCount_selsAt_pres s h hw _ _ h8,
      getCount_locksAt_pres s h hw _ _ h9]
    exact hr
  · intro dc cols js cs os gs gcs us ls hw r1 r2 r3 r4 r5 r6 r7 r8 r9
    have e1 : ((getCountStmt s h).1).distinctColumns = s.distinctColumns := rfl
    have e3 : ((getCountStmt s h).1).joins = s.joins := rfl
    have e4 : ((getCountStmt s h).1).conditions = s.conditions := rfl
    have e6 : ((getCountStmt s h).1).grouping = s.grouping := rfl
    have e7 : ((getCountStmt s h).1).groupConditions = s.groupConditions := rfl
    have e8 : ((getCountStmt s h).1).unions = s.unions := rfl
    have e9 : ((getCountStmt s h).1).locks = s.locks := rfl
    rw [readback, e1, e3, e4, e6, e7, e8, e9,
      getCount_columnsAt s h, getCount_orderingAt s h,
      getCount_strsAt_pres s h hw _ _ r1,
      getCount_joinsAt_pres s h hw _ _ r3,
      getCount_condsAt_pres s h hw _ _ r4,
      getCount_strsAt_pres s h hw _ _ r6,
      getCount_condsAt_pres s h hw _ _ r7,
      getCount_selsAt_pres s h hw _ _ r8,
      getCount_locksAt_pres s h hw _ _ r9]
    rfl

/-- A concrete memory level statement for the GetCount witness. -/
def getCountSample : SelectStmtRef :=
  ⟨true, false, 0, 1, "t".toList, 2, 3, 4, 5, 6, 7, 8, 5, 10, 20, true, false⟩

/-- The backing arrays of the sample statement, one slot per location. -/
def getCountSampleSlots : List Slot :=
  [.strs [], .strs ["x".toList], .joins [],
   .conds [.simple "id".toList (.vInt 1) "=".toList],
   .orders [⟨"id".toList, true⟩], .strs ["g".toList], .conds [], .sels [],
   .lockList []]

/-- The concrete heap for the GetCount witness. -/
def getCountSampleHeap : Heap :=
  ⟨fun n => getCountSampleSlots[n]?, 9⟩

/-- Claim C8 witness: on the concrete sample statement and heap, GetCount
derives the COUNT(*) statement with limits, offsets and ordering cleared
and everything else intact, and the original statement reads back
unchanged from the post GetCount heap. -/
theorem getCountStmt_derives_and_preserves_witness :
    readback (getCountStmt getCountSample getCountSampleHeap).1
        (getCountStmt getCountSample getCountSampleHeap).2
      = some (.mk true false [] ["COUNT(*)".toList] "t".toList []
          [.simple "id".toList (.vInt 1) "=".toList] [] ["g".toList] [] [] []
          0 0 0 true false)
    ∧ readback getCountSample (getCountStmt getCountSample getCountSampleHeap).2
      = some (.mk true false [] ["x".toList] "t".toList []
          [.simple "id".toList (.vInt 1) "=".toList] [⟨"id".toList, true⟩]
          ["g".toList] [] [] [] 5 10 20 true false) := by
  have hw : Heap.wf getCountSampleHeap := by
    intro n hn
    have hx : getCountSampleHeap.next = 9 := rfl
    have hl : getCountSampleSlots.length = 9 := rfl
    exact List.getElem?_eq_none (by omega)
  constructor
  · exact (getCountStmt_derives_and_preserves getCountSample getCountSampleHeap).2.2
      [] ["x".toList] [] [.simple "id".toList (.vInt 1) "=".toList]
      [⟨"id".toList, true⟩] ["g".toList] [] [] [] hw rfl rfl rfl rfl rfl rfl rfl rfl rfl
  · exact (getCountStmt_derives_and_preserves getCountSample getCountSampleHeap).2.1
      (.mk true false [] ["x".toList] "t".toList []
        [.simple "id".toList (.vInt 1) "=".toList] [⟨"id".toList, true⟩]
        ["g".toList] [] [] [] 5 10 20 true false) hw rfl

instance : Nonempty (List (GoStr × GoValue)) := ⟨[]⟩

instance : Nonempty (List GoValue) := ⟨[]⟩

instance : Nonempty (List GoStr) := ⟨[]⟩

mutual
/-- Specification side definition, following the spec text for the JSONB
renderer: the pre-order traversal of one builder element, in which a
nested map contributes its sorted keys each followed by the traversal of
its value, a nested sequence contributes the traversal of its elements in
order, and any other value contributes itself. -/
def jsonbPreVal : GoValue → List GoValue
  | .vMap es => jsonbPreObj es (sortKeys es)
  | .vList xs => jsonbPreList xs
  | v => [v]
termination_by v => (gvDepth v, 1)
decreasing_by
  · refine Prod.Lex.left _ _ ?_
    rw [gvDepth]
    omega
  · refine Prod.Lex.left _ _ ?_
    rw [gvDepth]
    omega

/-- Specification side definition: pre-order traversal of a map under a
given key order (used with the sorted key list). -/
def jsonbPreObj (es : List (GoStr × GoValue)) : List GoStr → List GoValue
  | [] => []
  | k :: ks => .vStr k :: (jsonbPreVal (mapGet es k) ++ jsonbPreObj es ks)
termination_by ks => (gvDepthEntries es, ks.length + 2)
decreasing_by
  · rcases lt_or_eq_of_le (gvDepth_mapGet_le es y) with h | h
    · exact Prod.Lex.left _ _ h
    · rw [h]
      exact Prod.Lex.right _ (by omega)
  · refine Prod.Lex.right _ ?_
    simp only [List.length_cons]
    omega

/-- Specification side definition: pre-order traversal of a sequence of
builder elements. -/
def jsonbPreList : List GoValue → List GoValue
  | [] => []
  | v :: rest => jsonbPreVal v ++ jsonbPreList rest
termination_by l => (gvDepthList l, l.length + 2)
decreasing_by
  · have hle : gvDepth arg ≤ gvDepthList (arg :: rest) := by
      rw [gvDepthList]
      exact le_max_left _ _
    rcases lt_or_eq_of_le hle with h | h
    · exact Prod.Lex.left _ _ h
    · rw [h]
      exact Prod.Lex.right _ (by omega)
  · have hle : gvDepthList rest ≤ gvDepthList (arg :: rest) := by
      rw [gvDepthList]
      exact le_max_right _ _
    rcases lt_or_eq_of_le hle with h | h
    · exact Prod.Lex.left _ _ h
    · rw [h]
      refine Prod.Lex.right _ ?_
      simp only [List.length_cons]
      omega
end

theorem jsonbPreList_keyVals (es : List (GoStr × GoValue)) :
    ∀ ks : List GoStr, jsonbPreList (jsonbKeyVals es ks) = jsonbPreObj es ks := by
  intro ks
  induction ks with
  | nil => simp [jsonbKeyVals, jsonbPreList, jsonbPreObj]
  | cons k ks ih =>
    rw [jsonbKeyVals]
    rw [jsonbPreList, jsonbPreList, jsonbPreObj]
    rw [ih]
    simp [jsonbPreVal]

theorem jsonbParse_snd (isArray : Bool) (binds : List GoValue) :
    (jsonbParse isArray binds).2 = (jsonbVals binds).2 := by
  simp [jsonbParse]

theorem jsonbVals_preorder : ∀ n : Nat, ∀ binds : List GoValue,
    gvDepthList binds ≤ n → (jsonbVals binds).2 = jsonbPreList binds := by
  intro n
  induction n using Nat.strong_induction_on with
  | _ n ih =>
    intro binds hb
    induction binds with
    | nil => simp [jsonbVals, jsonbPreList]
    | cons v rest ihrest =>
      have hrest : gvDepthList rest ≤ n := by
        have : gvDepthList rest ≤ gvDepthList (v :: rest) := by
          rw [gvDepthList]
          exact le_max_right _ _
        omega
      have hv : gvDepth v ≤ gvDepthList (v :: rest) := by
        rw [gvDepthList]
        exact le_max_left _ _
      cases v with
      | vMap es =>
        have hsub : gvDepthList (buildJSONBObjectBinds es) < n := by
          have h1 : gvDepthList (buildJSONBObjectBinds es) ≤ gvDepthEntries es :=
            gvDepthList_keyVals_le es (sortKeys es)
          have h2 : gvDepth (GoValue.vMap es) = gvDepthEntries es + 1 := by
            rw [gvDepth]
          omega
        have hn : (jsonbVals (jsonbKeyVals es (sortKeys es))).2
            = jsonbPreList (jsonbKeyVals es (sortKeys es)) :=
          ih (gvDepthList (buildJSONBObjectBinds es)) hsub
            (buildJSONBObjectBinds es) le_rfl
        simp [jsonbVals, jsonbPreList, jsonbPreVal, jsonbParse_snd, hn,
          buildJSONBObjectBinds, jsonbPreList_keyVals, ihrest hrest]
      | vList xs =>
        have hsub : gvDepthList xs < n := by
          have h2 : gvDepth (GoValue.vList xs) = gvDepthList xs + 1 := by
            rw [gvDepth]
          omega
        have hn : (jsonbVals xs).2 = jsonbPreList xs :=
          ih (gvDepthList xs) hsub xs le_rfl
        simp [jsonbVals, jsonbPreList, jsonbPreVal, jsonbParse_snd, hn, ihrest hrest]
      | vNull => simp [jsonbVals, jsonbPreList, jsonbPreVal, ihrest hrest]
      | vInt m => simp [jsonbVals, jsonbPreList, jsonbPreVal, ihrest hrest]
      | vStr s => simp [jsonbVals, jsonbPreList, jsonbPreVal, ihrest hrest]
      | vBool b => simp [jsonbVals, jsonbPreList, jsonbPreVal, ihrest hrest]
      | vIndirect r bs => simp [jsonbVals, jsonbPreList, jsonbPreVal, ihrest hrest]
      | vIntList ns => simp [jsonbVals, jsonbPreList, jsonbPreVal, ihrest hrest]
      | vJSONB a bs => simp [jsonbVals, jsonbPreList, jsonbPreVal, ihrest hrest]
      | vUpdateFn nm args => simp [jsonbVals, jsonbPreList, jsonbPreVal, ihrest hrest]

/-- Claim C7: the bindings of a JSONB builder render are the pre-order
traversal of the nested structure (first conjunct); in particular the
bindings of an object built by BuildJSONBObject follow the sorted keys,
each key binding followed by the traversal of its value (second conjunct);
and on a concrete object with one nested array value, the array bindings
appear immediately after that field key placeholder and before subsequent
key placeholders (last two conjuncts). -/
theorem jsonbParse_preorder :
    (∀ (isArray : Bool) (binds : List GoValue),
       (jsonbParse isArray binds).2 = jsonbPreList binds)
    ∧ (∀ es, (jsonbParse false (buildJSONBObjectBinds es)).2
         = jsonbPreObj es (sortKeys es))
    ∧ buildJSONBObjectBinds
        [("a".toList, .vInt 1), ("b".toList, .vList [.vInt 2, .vInt 3]),
         ("c".toList, .vInt 4)]
      = [.vStr "a".toList, .vInt 1, .vStr "b".toList, .vList [.vInt 2, .vInt 3],
         .vStr "c".toList, .vInt 4]
    ∧ jsonbParse false [.vStr "a".toList, .vInt 1, .vStr "b".toList,
        .vList [.vInt 2, .vInt 3], .vStr "c".toList, .vInt 4]
      = ("jsonb_build_object(?, ?, ?, jsonb_build_array(?, ?), ?, ?)".toList,
         [.vStr "a".toList, .vInt 1, .vStr "b".toList, .vInt 2, .vInt 3,
          .vStr "c".toList, .vInt 4]) := by
  have hmain : ∀ (isArray : Bool) (binds : List GoValue),
      (jsonbParse isArray binds).2 = jsonbPreList binds := by
    intro isArray binds
    rw [jsonbParse_snd]
    exact jsonbVals_preorder (gvDepthList binds) binds le_rfl
  refine ⟨hmain, ?_, rfl, ?_⟩
  · intro es
    rw [hmain false (buildJSONBObjectBinds es)]
    exact jsonbPreList_keyVals es (sortKeys es)
  · simp [jsonbParse, jsonbVals, goJoin]

/-- The number of question mark placeholder characters in a piece of SQL
text. -/
def countQ (s : GoStr) : Nat := s.countP (fun c => c == '?')

/-- A piece of text free of question marks. -/
def qFree (s : GoStr) : Bool := s.all (fun c => c != '?')

/-- All strings of a list free of question marks. -/
def qFreeAll (xs : List GoStr) : Bool := xs.all qFree

/-- Interleaving text pieces with question mark placeholders: the text
p0 ? p1 ? ... ? pn. -/
def intercalateQ : List GoStr → GoStr
  | [] => []
  | [p] => p
  | p :: ps => p ++ '?' :: intercalateQ ps

/-- The alignment property of a rendered SQL text with its bindings list:
the text decomposes into question mark free pieces with exactly one
placeholder between consecutive pieces, one placeholder per binding in
list order — that is, the i-th binding corresponds to the i-th question
mark of the text in left to right order. -/
def alignedQ (s : GoStr) (bs : List GoValue) : Prop :=
  ∃ ps : List GoStr, ps.length = bs.length + 1
    ∧ (∀ p ∈ ps, qFree p = true) ∧ s = intercalateQ ps

theorem qFree_append (a b : GoStr) : qFree (a ++ b) = (qFree a && qFree b) :=
  List.all_append

theorem alignedQ_text (t : GoStr) (h : qFree t = true) : alignedQ t [] :=
  ⟨[t], rfl, by simpa using h, rfl⟩

theorem alignedQ_qmark (v : GoValue) : alignedQ "?".toList [v] :=
  ⟨[[], []], rfl, by simp [qFree], rfl⟩

/-- Merge of two piece decompositions, gluing the last piece of the first
onto the first piece of the second. -/
def pmerge : List GoStr → List GoStr → List GoStr
  | [], qs => qs
  | [p], [] => [p]
  | [p], q :: qs => (p ++ q) :: qs
  | p :: ps, qs => p :: pmerge ps qs

theorem intercalateQ_cons (p : GoStr) (ps : List GoStr) (h : ps ≠ []) :
    intercalateQ (p :: ps) = p ++ '?' :: intercalateQ ps := by
  cases ps with
  | nil => cases h rfl
  | cons q qs => rfl

theorem pmerge_ne_nil (ps qs : List GoStr) (hp : ps ≠ []) :
    pmerge ps qs ≠ [] := by
  cases ps with
  | nil => cases hp rfl
  | cons p ps =>
    cases ps with
    | nil =>
      cases qs with
      | nil => simp [pmerge]
      | cons q qs => simp [pmerge]
    | cons p2 ps => simp [pmerge]

theorem pmerge_length (ps : List GoStr) : ∀ qs : List GoStr, ps ≠ [] → qs ≠ [] →
    (pmerge ps qs).length + 1 = ps.length + qs.length := by
  induction ps with
  | nil => intro qs hp _; cases hp rfl
  | cons p ps ih =>
    intro qs _ hq
    cases ps with
    | nil =>
      cases qs with
      | nil => cases hq rfl
      | cons q qs =>
        simp [pmerge]
        omega
    | cons p2 ps2 =>
      have h2 := ih qs (by simp) hq
      simp only [pmerge, List.length_cons] at h2 ⊢
      omega

theorem pmerge_qFree (ps : List GoStr) : ∀ qs : List GoStr,
    (∀ p ∈ ps, qFree p = true) → (∀ q ∈ qs, qFree q = true) →
    ∀ r ∈ pmerge ps qs, qFree r = true := by
  induction ps with
  | nil => intro qs _ hq r hr; exact hq r hr
  | cons p ps ih =>
    intro qs hp hq r hr
    cases ps with
    | nil =>
      cases qs with
      | nil =>
        simp only [pmerge] at hr
        exact hp r hr
      | cons q qs =>
        simp only [pmerge, List.mem_cons] at hr
        rcases hr with h | h
        · subst h
          rw [qFree_append]
          rw [hp p (by simp), hq q (by simp)]
          rfl
        · exact hq r (by simp [h])
    | cons p2 ps2 =>
      simp only [pmerge, List.mem_cons] at hr
      rcases hr with h | h
      · subst h
        exact hp r (by simp)
      · exact ih qs (fun x hx => hp x (by simp [hx])) hq r h

theorem intercalateQ_pmerge (ps : List GoStr) : ∀ qs : List GoStr,
    ps ≠ [] → qs ≠ [] →
    intercalateQ (pmerge ps qs) = intercalateQ ps ++ intercalateQ qs := by
  induction ps with
  | nil => intro qs hp _; cases hp rfl
  | cons p ps ih =>
    intro qs _ hq
    cases ps with
    | nil =>
      cases qs with
      | nil => cases hq rfl
      | cons q qs2 =>
        cases qs2 with
        | nil => simp [pmerge, intercalateQ]
        | cons q2 qs3 =>
          simp only [pmerge]
          rw [intercalateQ_cons (p ++ q) (q2 :: qs3) (by simp),
            intercalateQ_cons q (q2 :: qs3) (by simp)]
          simp [intercalateQ]
    | cons p2 ps2 =>
      have hm := pmerge_ne_nil (p2 :: ps2) qs (by simp)
      simp only [pmerge]
      rw [intercalateQ_cons p (pmerge (p2 :: ps2) qs) hm]
      rw [intercalateQ_cons p (p2 :: ps2) (by simp)]
      rw [ih qs (by simp) hq]
      simp

theorem alignedQ_append {s1 s2 : GoStr} {b1 b2 : List GoValue}
    (h1 : alignedQ s1 b1) (h2 : alignedQ s2 b2) :
    alignedQ (s1 ++ s2) (b1 ++ b2) := by
  obtain ⟨ps, hl1, hq1, rfl⟩ := h1
  obtain ⟨qs, hl2, hq2, rfl⟩ := h2
  have hp : ps ≠ [] := by
    intro h
    rw [h] at hl1
    simp at hl1
  have hqn : qs ≠ [] := by
    intro h
    rw [h] at hl2
    simp at hl2
  refine ⟨pmerge ps qs, ?_, pmerge_qFree ps qs hq1 hq2, ?_⟩
  · have := pmerge_length ps qs hp hqn
    simp only [List.length_append]
    omega
  · exact (intercalateQ_pmerge ps qs hp hqn).symm

theorem alignedQ_text_append {s : GoStr} {bs : List GoValue} (t : GoStr)
    (ht : qFree t = true) (ha : alignedQ s bs) : alignedQ (t ++ s) bs :=
  alignedQ_append (alignedQ_text t ht) ha

theorem alignedQ_append_text {s : GoStr} {bs : List GoValue} (t : GoStr)
    (ha : alignedQ s bs) (ht : qFree t = true) : alignedQ (s ++ t) bs := by
  have := alignedQ_append ha (alignedQ_text t ht)
  simpa using this

theorem alignedQ_raw (s : GoStr) : ∀ bs : List GoValue,
    countQ s = bs.length → alignedQ s bs := by
  induction s with
  | nil =>
    intro bs h
    have hlen : bs.length = 0 := by
      simp [countQ] at h
      omega
    have hbs : bs = [] := List.length_eq_zero.mp hlen
    subst hbs
    exact alignedQ_text [] rfl
  | cons c t ih =>
    intro bs h
    by_cases hc : c = '?'
    · subst hc
      have h2 : countQ t + 1 = bs.length := by
        simpa [countQ, List.countP_cons] using h
      cases bs with
      | nil => simp at h2
      | cons b bs2 =>
        have hr : countQ t = bs2.length := by
          simp only [List.length_cons] at h2
          omega
        have hx := alignedQ_append (alignedQ_qmark b) (ih bs2 hr)
        simpa using hx
    · have hr : countQ t = bs.length := by
        simp only [countQ, List.countP_cons] at h ⊢
        have : (c == '?') = false := by
          simp [hc]
        rw [this] at h
        simpa using h
      have hcq : qFree [c] = true := by
        simp [qFree, hc]
      have := alignedQ_append (alignedQ_text [c] hcq) (ih bs hr)
      simpa using this

theorem countQ_qFree {s : GoStr} (h : qFree s = true) : countQ s = 0 := by
  rw [countQ, List.countP_eq_zero]
  intro a ha
  have := (List.all_eq_true.mp h) a ha
  simpa using this

theorem countQ_intercalateQ (ps : List GoStr) (h : ∀ p ∈ ps, qFree p = true)
    (hne : ps ≠ []) : countQ (intercalateQ ps) + 1 = ps.length := by
  induction ps with
  | nil => cases hne rfl
  | cons p ps ih =>
    cases ps with
    | nil =>
      simp only [intercalateQ, List.length_cons]
      rw [countQ_qFree (h p (by simp))]
      simp
    | cons p2 ps2 =>
      rw [intercalateQ_cons p (p2 :: ps2) (by simp)]
      have hrec := ih (fun x hx => h x (by simp [hx])) (by simp)
      simp only [countQ, List.countP_append, List.countP_cons] at hrec ⊢
      have h0 : List.countP (fun c => c == '?') p = 0 :=
        countQ_qFree (h p (by simp))
      simp only [h0, beq_self_eq_true, if_pos, List.length_cons] at *
      omega

theorem alignedQ_countQ {s : GoStr} {bs : List GoValue} (h : alignedQ s bs) :
    countQ s = bs.length := by
  obtain ⟨ps, hl, hq, rfl⟩ := h
  have hne : ps ≠ [] := by
    intro h0
    rw [h0] at hl
    simp at hl
  have := countQ_intercalateQ ps hq hne
  omega

theorem alignedQ_cons_drop {c : Char} {t : GoStr} {bs : List GoValue}
    (hc : c ≠ '?') (ha : alignedQ (c :: t) bs) : alignedQ t bs := by
  obtain ⟨ps, hl, hq, he⟩ := ha
  rcases ps with _ | ⟨p0, ps1⟩
  · simp at hl
  rcases p0 with _ | ⟨a, p1⟩
  · rcases ps1 with _ | ⟨q, qs⟩
    · simp [intercalateQ] at he
    · rw [intercalateQ_cons [] (q :: qs) (by simp)] at he
      simp at he
      exact absurd he.1 hc
  · rcases ps1 with _ | ⟨q, qs⟩
    · simp only [intercalateQ] at he
      rw [List.cons_eq_cons] at he
      obtain ⟨hac, rfl⟩ := he
      refine ⟨[t], by simpa using hl, ?_, rfl⟩
      intro x hx
      simp at hx
      subst hx
      have h2 := hq (a :: x) (by simp)
      simp [qFree] at h2 ⊢
      exact h2.2
    · rw [intercalateQ_cons (a :: p1) (q :: qs) (by simp)] at he
      simp only [List.cons_append, List.cons_eq_cons] at he
      obtain ⟨rfl, he2⟩ := he
      refine ⟨p1 :: q :: qs, by simpa using hl, ?_, ?_⟩
      · intro x hx
        rcases List.mem_cons.mp hx with rfl | hx2
        · have := hq (c :: x) (by simp)
          simp [qFree] at this ⊢
          exact this.2
        · exact hq x (by simp [hx2])
      · rw [intercalateQ_cons p1 (q :: qs) (by simp)]
        exact he2

theorem intercalateQ_snoc (ps : List GoStr) (p : GoStr) (h : ps ≠ []) :
    intercalateQ (ps ++ [p]) = intercalateQ ps ++ '?' :: p := by
  induction ps with
  | nil => cases h rfl
  | cons q qs ih =>
    cases qs with
    | nil => simp [intercalateQ]
    | cons q2 qs2 =>
      rw [List.cons_append]
      rw [intercalateQ_cons q ((q2 :: qs2) ++ [p]) (by simp)]
      rw [intercalateQ_cons q (q2 :: qs2) (by simp)]
      rw [ih (by simp)]
      simp

theorem intercalateQ_reverse (ps : List GoStr) :
    (intercalateQ ps).reverse = intercalateQ ((ps.map List.reverse).reverse) := by
  induction ps with
  | nil => rfl
  | cons p qs ih =>
    cases qs with
    | nil => simp [intercalateQ]
    | cons q2 qs2 =>
      rw [intercalateQ_cons p (q2 :: qs2) (by simp)]
      rw [show ((p :: q2 :: qs2).map List.reverse).reverse
          = ((q2 :: qs2).map List.reverse).reverse ++ [p.reverse] by simp]
      rw [intercalateQ_snoc (((q2 :: qs2).map List.reverse).reverse) p.reverse
        (by simp)]
      rw [← ih]
      simp

theorem alignedQ_reverse {s : GoStr} {bs : List GoValue} (ha : alignedQ s bs) :
    alignedQ s.reverse bs.reverse := by
  obtain ⟨ps, hl, hq, rfl⟩ := ha
  refine ⟨(ps.map List.reverse).reverse, by simpa using hl, ?_, ?_⟩
  · intro x hx
    simp only [List.mem_reverse, List.mem_map] at hx
    obtain ⟨y, hy, rfl⟩ := hx
    have := hq y hy
    simpa [qFree] using this
  · exact intercalateQ_reverse ps

theorem alignedQ_dropLast {s : GoStr} {bs : List GoValue} {c : Char}
    (hlast : s.getLast? = some c) (hc : c ≠ '?') (ha : alignedQ s bs) :
    alignedQ s.dropLast bs := by
  rcases hrev : s.reverse with _ | ⟨d, r1⟩
  · have : s = [] := by
      have := congrArg List.reverse hrev
      simpa using this
    subst this
    simp at hlast
  · have hs : s = r1.reverse ++ [d] := by
      conv_lhs => rw [← List.reverse_reverse s, hrev]
      simp
    have hd : d = c := by
      rw [hs] at hlast
      simp [List.getLast?_concat] at hlast
      exact hlast
    subst hd
    have h1 : alignedQ (d :: r1) bs.reverse := by
      have := alignedQ_reverse ha
      rwa [hrev] at this
    have h2 : alignedQ r1 bs.reverse := alignedQ_cons_drop hc h1
    have h3 : alignedQ r1.reverse bs.reverse.reverse := alignedQ_reverse h2
    rw [List.reverse_reverse] at h3
    have hdl : s.dropLast = r1.reverse := by
      rw [hs]
      simp
    rwa [hdl]

theorem alignedQ_trimPfx (u : GoStr) (bs : List GoValue)
    (ha : alignedQ u bs) : alignedQ (goTrimPfxParen u) bs := by
  unfold goTrimPfxParen
  split
  · exact alignedQ_cons_drop (by decide) ha
  · exact ha

theorem alignedQ_trimSfx (u : GoStr) (bs : List GoValue)
    (ha : alignedQ u bs) : alignedQ (goTrimSfxParen u) bs := by
  unfold goTrimSfxParen
  split
  · next h => exact alignedQ_dropLast h (by decide) ha
  · exact ha

theorem alignedQ_stripParens {s : GoStr} {bs : List GoValue}
    (ha : alignedQ s bs) :
    alignedQ (stripParens (s, bs)).1 (stripParens (s, bs)).2 := by
  unfold stripParens
  split
  · exact alignedQ_trimPfx _ _ (alignedQ_trimSfx _ _ ha)
  · exact ha

theorem alignedQ_goJoin (sep : GoStr) (hsep : qFree sep = true) :
    ∀ prs : List (GoStr × List GoValue),
      (∀ pr ∈ prs, alignedQ pr.1 pr.2) →
      alignedQ (goJoin sep (prs.map Prod.fst)) ((prs.map Prod.snd).flatten) := by
  intro prs
  induction prs with
  | nil =>
    intro _
    exact alignedQ_text [] rfl
  | cons pr rest ih =>
    intro hall
    cases rest with
    | nil =>
      have := hall pr (by simp)
      simpa [goJoin] using this
    | cons pr2 rest2 =>
      have h1 := hall pr (by simp)
      have h2 := ih (fun q hq => hall q (by simp [hq]))
      have := alignedQ_append h1 (alignedQ_append (alignedQ_text sep hsep) h2)
      simp only [List.map_cons, goJoin] at *
      simpa using this

theorem alignedQ_qmarks : ∀ vs : List GoValue,
    alignedQ (goJoin ", ".toList (vs.map fun _ => "?".toList)) vs := by
  intro vs
  induction vs with
  | nil => exact alignedQ_text [] rfl
  | cons v rest ih =>
    cases rest with
    | nil => exact alignedQ_qmark v
    | cons v2 rest2 =>
      have h2 : qFree ", ".toList = true := by decide
      have := alignedQ_append (alignedQ_qmark v) (alignedQ_text_append _ h2 ih)
      simpa [goJoin] using this

/-- Well-formedness of a value on the right of a SimpleCondition or on the
left of an ArrayCondition: an IndirectValue must carry exactly one binding
per question mark of its spliced reference text (the caller obligation the
invariant is stated under); every other value is unconditional. -/
def WFright : GoValue → Bool
  | .vIndirect ref binds => countQ ref == binds.length
  | _ => true

/-- Well-formedness of the right value of an ArrayCondition: a plain Go
string is spliced verbatim, so it must not itself contain question marks;
every other value is bound through a placeholder and unconditional. -/
def WFarrRight : GoValue → Bool
  | .vStr s => qFree s
  | _ => true

mutual
/-- Caller obligations under which the binding and placeholder counts of a
parsed condition line up: spliced texts (column names, operators, raw SQL
with its bindings, indirect references) contribute exactly the question
marks their own bindings account for. -/
def WFcond : WhereCondition → Bool
  | .simple left right op => qFree left && qFree op && WFright right
  | .sqlCond condition binds => countQ condition == binds.length
  | .arrayCond left op typ right =>
    WFright left && qFree op && qFree typ && WFarrRight right
  | .inCond _ left _ => qFree left
  | .andOr _ conds => WFconds conds
  | .pre p cond => qFree p && WFcond cond
  | .subquery stmt op => qFree op && WFsel stmt

/-- WFcond for every condition of a list. -/
def WFconds : List WhereCondition → Bool
  | [] => true
  | c :: cs => WFcond c && WFconds cs

/-- Caller obligations for a list of join clauses. -/
def WFjoins : List JoinClause → Bool
  | [] => true
  | .mk _ table rs conds :: rest =>
    qFree table
      && (match rs with
          | some s => WFsel s
          | none => true)
      && WFconds conds && WFjoins rest

/-- Caller obligations for a list of union sub-selects. -/
def WFsels : List SelectStmt → Bool
  | [] => true
  | s :: ss => WFsel s && WFsels ss

/-- Caller obligations for a select statement: all spliced texts (column
names, table, grouping, ordering columns, lock tables) are free of
question marks and all nested conditions, joins and unions are well
formed. -/
def WFsel : SelectStmt → Bool
  | .mk _ _ distinctColumns columns table joins conditions ordering grouping
      groupConditions unions locks _ _ _ _ _ =>
    qFreeAll distinctColumns && qFreeAll columns && qFree table
      && WFjoins joins && WFconds conditions
      && ordering.all (fun o => qFree o.column) && qFreeAll grouping
      && WFconds groupConditions && WFsels unions
      && locks.all (fun l => qFreeAll l.tables)
end

theorem digitC_ne_q (m : Nat) : digitC m ≠ '?' := by
  unfold digitC
  split <;> decide

theorem qFree_natToStr_go : ∀ fuel n : Nat, ∀ acc : GoStr,
    qFree acc = true → qFree (natToStr.go fuel n acc) = true := by
  intro fuel
  induction fuel with
  | zero =>
    intro n acc h
    simpa [natToStr.go] using h
  | succ fuel ih =>
    intro n acc h
    have hd : qFree (digitC (n % 10) :: acc) = true := by
      simp only [qFree, List.all_cons]
      rw [bne_iff_ne.mpr (digitC_ne_q (n % 10))]
      simpa [qFree] using h
    simp only [natToStr.go]
    split
    · exact hd
    · exact ih (n / 10) _ hd

theorem qFree_natToStr (n : Nat) : qFree (natToStr n) = true :=
  qFree_natToStr_go (n + 1) n [] rfl

theorem qFree_intToStr (i : Int) : qFree (intToStr i) = true := by
  unfold intToStr
  split
  · have h := qFree_natToStr (-i).toNat
    simp only [qFree, List.all_cons] at h ⊢
    simpa using h
  · exact qFree_natToStr _

theorem qFree_goJoin (sep : GoStr) (hsep : qFree sep = true) :
    ∀ xs : List GoStr, (∀ x ∈ xs, qFree x = true) →
      qFree (goJoin sep xs) = true := by
  intro xs
  induction xs with
  | nil => intro _; rfl
  | cons x rest ih =>
    intro h
    cases rest with
    | nil => exact h x (by simp)
    | cons y ys =>
      have h1 := h x (by simp)
      have h2 := ih (fun z hz => h z (by simp [hz]))
      simp only [goJoin, qFree_append]
      rw [h1, hsep, h2]
      rfl

theorem qFreeAll_mem {xs : List GoStr} (h : qFreeAll xs = true) :
    ∀ x ∈ xs, qFree x = true := by
  intro x hx
  exact (List.all_eq_true.mp h) x hx

theorem qFree_joinTypeString (j : Nat) : qFree (joinTypeString j) = true := by
  have hj : qFree " JOIN".toList = true := rfl
  have hl : qFree " LATERAL".toList = true := rfl
  have hm : qFree (match j % 4 with
      | 0 => "INNER".toList
      | 1 => "LEFT".toList
      | 2 => "RIGHT".toList
      | _ => "FULL".toList) = true := by
    rcases j % 4 with _ | _ | _ | m <;> rfl
  simp only [joinTypeString]
  split
  · rw [qFree_append, qFree_append, hm, hj, hl]
    rfl
  · rw [qFree_append, hm, hj]
    rfl

theorem qFree_lockStrengthStr {s : Int} {str : GoStr}
    (h : lockStrengthStr s = some str) : qFree str = true := by
  unfold lockStrengthStr at h
  split at h
  · cases h; rfl
  · split at h
    · cases h; rfl
    · split at h
      · cases h; rfl
      · split at h
        · cases h; rfl
        · exact absurd h (by simp)

theorem mem_ite_list {α : Type} {P : Prop} [Decidable P] {a : α}
    {l1 l2 : List α} (h : a ∈ (if P then l1 else l2)) : a ∈ l1 ∨ a ∈ l2 := by
  split at h
  · exact Or.inl h
  · exact Or.inr h

theorem qFree_locksToSQL : ∀ ls : List LockClause,
    (∀ l ∈ ls, qFreeAll l.tables = true) →
    ∀ x ∈ locksToSQL ls, qFree x = true := by
  intro ls
  induction ls with
  | nil =>
    intro _ x hx
    simp [locksToSQL] at hx
  | cons l rest ih =>
    intro h x hx
    simp only [locksToSQL] at hx
    cases hs : lockStrengthStr l.strength with
    | none =>
      rw [hs] at hx
      exact ih (fun y hy => h y (by simp [hy])) x hx
    | some str =>
      rw [hs] at hx
      simp only [List.mem_cons] at hx
      rcases hx with rfl | hx
      · apply qFree_goJoin " ".toList rfl
        intro y hy
        simp only [List.mem_append, List.mem_cons, List.not_mem_nil,
          or_false] at hy
        rcases hy with (rfl | h2) | h3
        · exact qFree_lockStrengthStr hs
        · rcases mem_ite_list h2 with h2 | h2
          · simp only [List.mem_cons, List.not_mem_nil, or_false] at h2
            subst h2
            rw [qFree_append]
            rw [qFree_goJoin ", ".toList rfl l.tables
              (qFreeAll_mem (h l (by simp)))]
            rfl
          · simp at h2
        · rcases mem_ite_list h3 with h3 | h3
          · simp only [List.mem_cons, List.not_mem_nil, or_false] at h3
            subst h3
            rfl
          · rcases mem_ite_list h3 with h3 | h3
            · simp only [List.mem_cons, List.not_mem_nil, or_false] at h3
              subst h3
              rfl
            · simp at h3
      · exact ih (fun y hy => h y (by simp [hy])) x hx

theorem alignedQ_simplePlaceholder (v : GoValue) (h : WFright v = true) :
    alignedQ (simplePlaceholder v).1 (simplePlaceholder v).2 := by
  cases v
  case vIndirect ref binds =>
    simp only [WFright, beq_iff_eq] at h
    exact alignedQ_raw ref binds h
  all_goals exact alignedQ_qmark _

theorem alignedQ_arrayLeftSQL (v : GoValue) (h : WFright v = true) :
    alignedQ (arrayLeftSQL v).1 (arrayLeftSQL v).2 := by
  cases v
  case vIndirect ref binds =>
    simp only [WFright, beq_iff_eq] at h
    exact alignedQ_raw ref binds h
  all_goals exact alignedQ_qmark _

theorem alignedQ_arrayRightSQL (v : GoValue) (h : WFarrRight v = true) :
    alignedQ (arrayRightSQL v).1 (arrayRightSQL v).2 := by
  cases v
  case vStr s =>
    simp only [WFarrRight] at h
    exact alignedQ_text s h
  all_goals exact alignedQ_qmark _

theorem WFconds_mem : ∀ cs : List WhereCondition, WFconds cs = true →
    ∀ c ∈ cs, WFcond c = true := by
  intro cs
  induction cs with
  | nil =>
    intro _ c hc
    simp at hc
  | cons c0 cs ih =>
    intro h c hc
    simp only [WFconds, Bool.and_eq_true] at h
    rcases List.mem_cons.mp hc with rfl | hc
    · exact h.1
    · exact ih h.2 c hc

theorem WFsels_mem : ∀ ss : List SelectStmt, WFsels ss = true →
    ∀ s ∈ ss, WFsel s = true := by
  intro ss
  induction ss with
  | nil =>
    intro _ s hs
    simp at hs
  | cons s0 ss ih =>
    intro h s hs
    simp only [WFsels, Bool.and_eq_true] at h
    rcases List.mem_cons.mp hs with rfl | hs
    · exact h.1
    · exact ih h.2 s hs

theorem parseCondPairs_eq_map : ∀ cs : List WhereCondition,
    parseCondPairs cs = cs.map parseCond := by
  intro cs
  induction cs with
  | nil => rfl
  | cons c cs ih => simp only [parseCondPairs, List.map_cons, ih]

example : WFcond (.simple "a".toList (.vInt 1) "=".toList) = true := by decide

example : WFsel (.mk false false [] ["a".toList] "t".toList [] [] [] [] [] []
    [] 0 0 0 false false) = true := by decide

/-- Main alignment invariant, proved by strong induction on the size of the
condition or statement: under the WF obligations every rendered fragment is
aligned, that is, its bindings match its question marks one for one in left
to right order. The five conjuncts cover the five mutually recursive
renderers. -/
theorem parse_alignment_all : ∀ n : Nat,
    (∀ c : WhereCondition, sizeOf c ≤ n → WFcond c = true →
       alignedQ (parseCond c).1 (parseCond c).2)
  ∧ (∀ cs : List WhereCondition, sizeOf cs ≤ n → WFconds cs = true →
       alignedQ (parseConditions cs).1 (parseConditions cs).2)
  ∧ (∀ js : List JoinClause, sizeOf js ≤ n → WFjoins js = true →
       ∀ pr ∈ joinsToSQL js, alignedQ pr.1 pr.2)
  ∧ (∀ cmd : GoStr, ∀ us : List SelectStmt, sizeOf us ≤ n →
       qFree cmd = true → WFsels us = true →
       ∀ pr ∈ unionsToSQL cmd us, alignedQ pr.1 pr.2)
  ∧ (∀ s : SelectStmt, sizeOf s ≤ n → WFsel s = true →
       alignedQ (selectToSQL s).1 (selectToSQL s).2) := by
  intro n
  induction n using Nat.strong_induction_on with
  | _ n ih =>
    refine ⟨?_, ?_, ?_, ?_, ?_⟩
    · -- parseCond
      intro c hc hwf
      cases c with
      | simple left right op =>
        simp only [WFcond, Bool.and_eq_true] at hwf
        obtain ⟨⟨hl, hop⟩, hr⟩ := hwf
        cases right
        case vNull =>
          simp only [parseCond]
          exact alignedQ_text _ (by simp only [qFree_append, hl, hop]; decide)
        all_goals
          simp only [parseCond]
        all_goals
          exact alignedQ_text_append _
            (by simp only [qFree_append, hl, hop]; decide)
            (alignedQ_simplePlaceholder _ hr)
      | sqlCond condition binds =>
        simp only [WFcond, beq_iff_eq] at hwf
        simp only [parseCond]
        exact alignedQ_raw condition binds hwf
      | arrayCond left op typ right =>
        simp only [WFcond, Bool.and_eq_true] at hwf
        obtain ⟨⟨⟨hl, hop⟩, htyp⟩, hr⟩ := hwf
        simp only [parseCond]
        refine alignedQ_append_text ")".toList
          (alignedQ_append ?_ (alignedQ_arrayRightSQL right hr)) rfl
        refine alignedQ_append_text "(".toList ?_ rfl
        refine alignedQ_append_text _ ?_ htyp
        refine alignedQ_append_text " ".toList ?_ rfl
        refine alignedQ_append_text _ ?_ hop
        refine alignedQ_append_text " ".toList ?_ rfl
        exact alignedQ_arrayLeftSQL left hl
      | inCond notIn left right =>
        simp only [WFcond] at hwf
        have hni : qFree (if notIn then " NOT".toList else []) = true := by
          cases notIn <;> rfl
        simp only [parseCond]
        refine alignedQ_append_text ")".toList
          (alignedQ_text_append _ ?_ (alignedQ_qmarks right)) rfl
        simp only [qFree_append, hwf, hni]
        decide
      | andOr isOr conds =>
        simp only [WFcond] at hwf
        have hsz : sizeOf conds < n := by
          have h1 := hc
          simp only [WhereCondition.andOr.sizeOf_spec] at h1
          omega
        have hall : ∀ pr ∈ parseCondPairs conds, alignedQ pr.1 pr.2 := by
          intro pr hpr
          rw [parseCondPairs_eq_map] at hpr
          obtain ⟨c0, hc0, rfl⟩ := List.mem_map.mp hpr
          have hlt : sizeOf c0 < sizeOf conds := List.sizeOf_lt_of_mem hc0
          exact (ih (sizeOf c0) (by omega)).1 c0 le_rfl
            (WFconds_mem conds hwf c0 hc0)
        have hop : qFree (if isOr then " OR ".toList else " AND ".toList)
            = true := by
          cases isOr <;> rfl
        simp only [parseCond, andOrJoin]
        exact alignedQ_append_text ")".toList
          (alignedQ_text_append "(".toList rfl
            (alignedQ_goJoin _ hop _ hall)) rfl
      | pre p cond =>
        simp only [WFcond, Bool.and_eq_true] at hwf
        obtain ⟨hp, hcw⟩ := hwf
        have hsz : sizeOf cond < n := by
          have h1 := hc
          simp only [WhereCondition.pre.sizeOf_spec] at h1
          omega
        have hrec := (ih (sizeOf cond) hsz).1 cond le_rfl hcw
        simp only [parseCond]
        exact alignedQ_append_text ")".toList
          (alignedQ_text_append _
            (by simp only [qFree_append, hp]; decide) hrec) rfl
      | subquery stmt op =>
        simp only [WFcond, Bool.and_eq_true] at hwf
        obtain ⟨hop, hsw⟩ := hwf
        have hsz : sizeOf stmt < n := by
          have h1 := hc
          simp only [WhereCondition.subquery.sizeOf_spec] at h1
          omega
        have hrec := (ih (sizeOf stmt) hsz).2.2.2.2 stmt le_rfl hsw
        simp only [parseCond]
        exact alignedQ_append_text ")".toList
          (alignedQ_text_append _
            (by simp only [qFree_append, hop]; decide) hrec) rfl
    · -- parseConditions
      intro cs hc hwf
      have hmem : ∀ c ∈ cs, alignedQ (parseCond c).1 (parseCond c).2 := by
        intro c0 hc0
        have hlt : sizeOf c0 < sizeOf cs := List.sizeOf_lt_of_mem hc0
        exact (ih (sizeOf c0) (by omega)).1 c0 le_rfl
          (WFconds_mem cs hwf c0 hc0)
      rcases cs with _ | ⟨c1, cs1⟩
      · simp only [parseConditions]
        exact alignedQ_stripParens (alignedQ_text [] rfl)
      rcases cs1 with _ | ⟨c2, cs2⟩
      · simp only [parseConditions]
        exact alignedQ_stripParens (hmem c1 (by simp))
      · simp only [parseConditions, andOrJoin]
        have hall : ∀ pr ∈ parseCond c1 :: parseCond c2 :: parseCondPairs cs2,
            alignedQ pr.1 pr.2 := by
          intro pr hpr
          rcases List.mem_cons.mp hpr with rfl | hpr
          · exact hmem c1 (by simp)
          rcases List.mem_cons.mp hpr with rfl | hpr
          · exact hmem c2 (by simp)
          rw [parseCondPairs_eq_map] at hpr
          obtain ⟨c0, hc0, rfl⟩ := List.mem_map.mp hpr
          exact hmem c0 (by simp [hc0])
        have hop : qFree (if false then " OR ".toList else " AND ".toList)
            = true := rfl
        exact alignedQ_stripParens (alignedQ_append_text ")".toList
          (alignedQ_text_append "(".toList rfl
            (alignedQ_goJoin _ hop _ hall)) rfl)
    · -- joins
      intro js hc hwf pr hpr
      rcases js with _ | ⟨⟨jtype, table, rs, conds⟩, rest⟩
      · simp [joinsToSQL] at hpr
      have h1 := hc
      simp only [List.cons.sizeOf_spec, JoinClause.mk.sizeOf_spec] at h1
      have hszconds : sizeOf conds < n := by omega
      have hszrest : sizeOf rest < n := by omega
      cases rs with
      | none =>
        have hwf2 : (qFree table && true && WFconds conds && WFjoins rest)
            = true := hwf
        simp only [Bool.and_eq_true] at hwf2
        obtain ⟨⟨⟨htab, _⟩, hcnd⟩, hrest⟩ := hwf2
        have honPair := (ih (sizeOf conds) hszconds).2.1 conds le_rfl hcnd
        have hpr2 : pr ∈ (joinTypeString jtype ++ " ".toList ++ table
            ++ " ON ".toList ++ (parseConditions conds).1,
            (parseConditions conds).2) :: joinsToSQL rest := hpr
        rcases List.mem_cons.mp hpr2 with rfl | hpr3
        · exact alignedQ_text_append _
            (by simp only [qFree_append, htab, qFree_joinTypeString]; decide)
            honPair
        · exact (ih (sizeOf rest) hszrest).2.2.1 rest le_rfl hrest pr hpr3
      | some s =>
        have hwf2 : (qFree table && WFsel s && WFconds conds && WFjoins rest)
            = true := hwf
        simp only [Bool.and_eq_true] at hwf2
        obtain ⟨⟨⟨htab, hsw⟩, hcnd⟩, hrest⟩ := hwf2
        have honPair := (ih (sizeOf conds) hszconds).2.1 conds le_rfl hcnd
        have hszs : sizeOf s < n := by
          simp only [Option.some.sizeOf_spec] at h1
          omega
        have hsel := (ih (sizeOf s) hszs).2.2.2.2 s le_rfl hsw
        have hpr2 : pr ∈ (joinTypeString jtype ++ " (".toList
            ++ (selectToSQL s).1 ++ ") ".toList ++ table ++ " ON ".toList
            ++ (parseConditions conds).1,
            (selectToSQL s).2 ++ (parseConditions conds).2)
            :: joinsToSQL rest := hpr
        rcases List.mem_cons.mp hpr2 with rfl | hpr3
        · refine alignedQ_append ?_ honPair
          refine alignedQ_append_text " ON ".toList ?_ rfl
          refine alignedQ_append_text _ ?_ htab
          refine alignedQ_append_text ") ".toList ?_ rfl
          exact alignedQ_text_append _
            (by simp only [qFree_append, qFree_joinTypeString]; decide) hsel
        · exact (ih (sizeOf rest) hszrest).2.2.1 rest le_rfl hrest pr hpr3
    · -- unions
      intro cmd us hc hcmd hwf pr hpr
      rcases us with _ | ⟨u, rest⟩
      · simp [unionsToSQL] at hpr
      have hwf2 : (WFsel u && WFsels rest) = true := hwf
      simp only [Bool.and_eq_true] at hwf2
      obtain ⟨hu, hrest⟩ := hwf2
      have h1 := hc
      simp only [List.cons.sizeOf_spec] at h1
      have hpr2 : pr ∈ (cmd ++ " ".toList ++ (selectToSQL u).1,
          (selectToSQL u).2) :: unionsToSQL cmd rest := hpr
      rcases List.mem_cons.mp hpr2 with rfl | hpr3
      · have hszu : sizeOf u < n := by omega
        have hsel := (ih (sizeOf u) hszu).2.2.2.2 u le_rfl hu
        exact alignedQ_text_append _
          (by simp only [qFree_append, hcmd]; decide) hsel
      · have hszrest : sizeOf rest < n := by omega
        exact (ih (sizeOf rest) hszrest).2.2.2.1 cmd rest le_rfl hcmd hrest
          pr hpr3
    · -- selectToSQL
      intro s hc hwf
      rcases s with ⟨isDistinct, isUnionAll, distinctColumns, columns, table,
        joins, conditions, ordering, grouping, groupConditions, unions, locks,
        limitTo, offsetFrom, offsetRows, nullsEnabled, nullsFirst⟩
      simp only [WFsel, Bool.and_eq_true] at hwf
      obtain ⟨⟨⟨⟨⟨⟨⟨⟨⟨hdc, hcols⟩, htab⟩, hjoins⟩, hconds⟩, hord⟩, hgrp⟩,
        hgc⟩, hus⟩, hlocks⟩ := hwf
      have hsz := hc
      simp only [SelectStmt.mk.sizeOf_spec] at hsz
      have hordm : ∀ x ∈ ordering.map orderColumnToSQL, qFree x = true := by
        intro x hx
        obtain ⟨o, ho, rfl⟩ := List.mem_map.mp hx
        have hoc : qFree o.column = true := by
          simpa using (List.all_eq_true.mp hord) o ho
        unfold orderColumnToSQL
        split
        · rw [qFree_append, hoc]; rfl
        · rw [qFree_append, hoc]; rfl
      have hlk : ∀ l ∈ locks, qFreeAll l.tables = true := fun l hl => by
        simpa using (List.all_eq_true.mp hlocks) l hl
      simp only [selectToSQL]
      refine alignedQ_goJoin " ".toList rfl _ ?_
      intro pr hpr
      rcases List.mem_append.mp hpr with hpr | h
      swap
      · have hszu : sizeOf unions < n := by omega
        have hcmdq : qFree ("UNION".toList
            ++ (if isUnionAll then " ALL".toList else [])) = true := by
          cases isUnionAll <;> rfl
        exact (ih (sizeOf unions) hszu).2.2.2.1 _ unions le_rfl hcmdq hus
          pr h
      rcases List.mem_append.mp hpr with hpr | h
      swap
      · obtain ⟨cstr, hcm, rfl⟩ := List.mem_map.mp h
        exact alignedQ_text _ (qFree_locksToSQL locks hlk cstr hcm)
      rcases List.mem_append.mp hpr with hpr | h
      swap
      · rcases mem_ite_list h with h | h
        · rw [List.mem_singleton] at h
          subst h
          have hoff : qFree (if offsetRows > 0
              then " ".toList ++ intToStr offsetRows else []) = true := by
            split
            · simp only [qFree_append, qFree_intToStr]; decide
            · rfl
          exact alignedQ_text _
            (by simp only [qFree_append, qFree_intToStr, hoff]; decide)
        · exact absurd h (List.not_mem_nil _)
      rcases List.mem_append.mp hpr with hpr | h
      swap
      · rcases mem_ite_list h with h | h
        · rw [List.mem_singleton] at h
          subst h
          exact alignedQ_text _
            (by simp only [qFree_append, qFree_intToStr]; decide)
        · exact absurd h (List.not_mem_nil _)
      rcases List.mem_append.mp hpr with hpr | h
      swap
      · rcases mem_ite_list h with h | h
        · rcases List.mem_append.mp h with h | h
          · rw [List.mem_singleton] at h
            subst h
            refine alignedQ_text _ ?_
            simp only [qFree_append]
            rw [qFree_goJoin ", ".toList rfl _ hordm]
            decide
          · rcases mem_ite_list h with h | h
            · rw [List.mem_singleton] at h
              subst h
              exact alignedQ_text _ (by cases nullsFirst <;> rfl)
            · exact absurd h (List.not_mem_nil _)
        · exact absurd h (List.not_mem_nil _)
      rcases List.mem_append.mp hpr with hpr | h
      swap
      · rcases mem_ite_list h with h | h
        · rw [List.mem_singleton] at h
          subst h
          have hszg : sizeOf groupConditions < n := by omega
          exact alignedQ_text_append "HAVING ".toList rfl
            ((ih (sizeOf groupConditions) hszg).2.1 groupConditions le_rfl hgc)
        · exact absurd h (List.not_mem_nil _)
      rcases List.mem_append.mp hpr with hpr | h
      swap
      · rcases mem_ite_list h with h | h
        · rw [List.mem_singleton] at h
          subst h
          refine alignedQ_text _ ?_
          simp only [qFree_append]
          rw [qFree_goJoin ", ".toList rfl grouping (qFreeAll_mem hgrp)]
          decide
        · exact absurd h (List.not_mem_nil _)
      rcases List.mem_append.mp hpr with hpr | h
      swap
      · rcases mem_ite_list h with h | h
        · rw [List.mem_singleton] at h
          subst h
          have hszc : sizeOf conditions < n := by omega
          exact alignedQ_text_append "WHERE ".toList rfl
            ((ih (sizeOf conditions) hszc).2.1 conditions le_rfl hconds)
        · exact absurd h (List.not_mem_nil _)
      rcases List.mem_append.mp hpr with hpr | h
      swap
      · have hszj : sizeOf joins < n := by omega
        exact (ih (sizeOf joins) hszj).2.2.1 joins le_rfl hjoins pr h
      rcases List.mem_append.mp hpr with hpr | h
      swap
      · rw [List.mem_singleton] at h
        subst h
        exact alignedQ_text _ (by simp only [qFree_append, htab]; decide)
      rcases List.mem_append.mp hpr with hpr | h
      swap
      · rw [List.mem_singleton] at h
        subst h
        refine alignedQ_text _ ?_
        split
        · rfl
        · exact qFree_goJoin ", ".toList rfl columns (qFreeAll_mem hcols)
      rcases List.mem_append.mp hpr with h | h
      · rw [List.mem_singleton] at h
        subst h
        exact alignedQ_text _ rfl
      · rcases mem_ite_list h with h | h
        · rcases List.mem_append.mp h with h | h
          · rw [List.mem_singleton] at h
            subst h
            exact alignedQ_text _ rfl
          · rcases mem_ite_list h with h | h
            · rw [List.mem_singleton] at h
              subst h
              refine alignedQ_text _ ?_
              simp only [qFree_append]
              rw [qFree_goJoin ", ".toList rfl distinctColumns
                (qFreeAll_mem hdc)]
              decide
            · exact absurd h (List.not_mem_nil _)
        · exact absurd h (List.not_mem_nil _)

/-- C1: for every WhereCondition (all seven concrete condition types) and
for every condition list passed to parseConditions, under the
well-formedness obligations on spliced caller text (WFcond / WFconds /
WFsel), the length of the returned bindings list equals the number of
question mark placeholders in the returned SQL text, and the bindings are
aligned with the placeholders: the i-th binding corresponds to the i-th
question mark in left to right textual order (alignedQ). The third
conjunct extends the invariant to a whole SELECT statement rendering. -/
theorem parse_binding_placeholder_invariant :
    (∀ c : WhereCondition, WFcond c = true →
       countQ (parseCond c).1 = (parseCond c).2.length ∧
       alignedQ (parseCond c).1 (parseCond c).2)
  ∧ (∀ cs : List WhereCondition, WFconds cs = true →
       countQ (parseConditions cs).1 = (parseConditions cs).2.length ∧
       alignedQ (parseConditions cs).1 (parseConditions cs).2)
  ∧ (∀ s : SelectStmt, WFsel s = true →
       countQ (selectToSQL s).1 = (selectToSQL s).2.length ∧
       alignedQ (selectToSQL s).1 (selectToSQL s).2) := by
  refine ⟨?_, ?_, ?_⟩
  · intro c hwf
    have h := (parse_alignment_all (sizeOf c)).1 c le_rfl hwf
    exact ⟨alignedQ_countQ h, h⟩
  · intro cs hwf
    have h := (parse_alignment_all (sizeOf cs)).2.1 cs le_rfl hwf
    exact ⟨alignedQ_countQ h, h⟩
  · intro s hwf
    have h := (parse_alignment_all (sizeOf s)).2.2.2.2 s le_rfl hwf
    exact ⟨alignedQ_countQ h, h⟩

/-- Closed instance of the C1 invariant: a two-condition list (an equality
against a bound integer and an IN over two values) renders with exactly
three placeholders and three bindings, placeholders and bindings aligned. -/
theorem parse_binding_placeholder_invariant_witness :
    countQ (parseConditions [WhereCondition.simple "a".toList (.vInt 1)
        "=".toList,
      WhereCondition.inCond false "b".toList [.vInt 2, .vInt 3]]).1
    = (parseConditions [WhereCondition.simple "a".toList (.vInt 1) "=".toList,
      WhereCondition.inCond false "b".toList [.vInt 2, .vInt 3]]).2.length :=
  (parse_binding_placeholder_invariant.2.1 _ (by decide)).1
